import Mathlib

/-!
Shallow embedding of the PR Activity Aggregation & Scoring Engine of the
LICORNE_2026 repository.

Two sibling implementations exist in the source and both are embedded here:

* the GraphQL `GitHubService` (the latest snapshot, the one that contains
  `getRescueLeaderboard`): `getLeaderboard`, `getRescueLeaderboard`,
  `fetchStalePRs`, `getTop10MostNeglectedPRs`, `calculatePRStatus`;
* the REST `GitHubService` (`src/src/services/GithubService.ts`):
  `getReviewerStats` together with the per-PR sub-resource fetchers
  `fetchPRReviews` / `fetchPRComments` / `fetchPRReactions`.

Modelling conventions:

* Timestamps (`createdAt`, `submittedAt`, ...) are integer epoch
  milliseconds; the source parses ISO strings with `new Date` and only ever
  uses `getTime()` millisecond values.
* JavaScript floating-point arithmetic on ages is modelled with exact
  rationals (`ℚ`); `Math.floor` is `Int.floor`.
* A JavaScript `Map` built by `getOrCreate...` helpers is modelled as an
  association list in insertion order with unique keys.
* An asynchronous request that can reject is modelled as an
  `Except String` value; a `catch` block is an explicit `match` on it.
* The cursor-pagination `while (pagesFetched < 6)` loop is modelled by
  structural recursion on the remaining page budget
  (`remaining = 6 - pagesFetched`), starting from 6.
* `getTop10MostNeglectedPRs` constructs `new Date()` twice (once inside
  `fetchStalePRs`, once for the status pass), milliseconds apart; both are
  modelled as one instant `now`.
-/

namespace LICORNE

/-- A review node of the GraphQL queries: `state`, `author { login }`
(`none` for a deleted account) and, where the query selects it,
`submittedAt`. -/
structure ReviewNode where
  state : String
  author : Option String
  submittedAt : Int
  deriving DecidableEq

/-- An issue-comment node: `author { login }` and `createdAt`. -/
structure CommentNode where
  author : Option String
  createdAt : Int
  deriving DecidableEq

/-- A pull-request node as selected by the GraphQL queries. -/
structure PRNode where
  number : Nat
  title : String
  url : String
  createdAt : Int
  reviews : List ReviewNode
  comments : List CommentNode
  deriving DecidableEq

structure PageInfo where
  hasNextPage : Bool
  endCursor : Option String
  deriving DecidableEq

/-- One page of the paginated pull-request connection. -/
structure Page where
  pageInfo : PageInfo
  nodes : List PRNode
  deriving DecidableEq

/-- The `timeUnit` parameter: `'hours' | 'days'`. -/
inductive TimeUnit where
  | hours
  | days
  deriving DecidableEq

/-- Milliseconds per time unit: `1000*60*60` for hours,
`1000*60*60*24` for days. -/
def msPerUnit : TimeUnit → ℚ
  | .hours => 1000 * 60 * 60
  | .days => 1000 * 60 * 60 * 24

/-- `ageMs / (1000*60*60)` or `ageMs / (1000*60*60*24)` depending on the
time unit. -/
def ageInUnit (timeUnit : TimeUnit) (ageMs : Int) : ℚ :=
  (ageMs : ℚ) / msPerUnit timeUnit

/-- The `ReviewerStats` record of `github.types.ts`. -/
structure ReviewerStats where
  username : String
  reviewCount : Nat
  approvals : Nat
  changesRequested : Nat
  comments : Nat
  totalComments : Nat
  reactions : Nat
  points : Int
  deriving DecidableEq

/-- The fresh record installed by `getOrCreateReviewer`. -/
def newReviewer (username : String) : ReviewerStats :=
  { username := username, reviewCount := 0, approvals := 0,
    changesRequested := 0, comments := 0, totalComments := 0,
    reactions := 0, points := 0 }

/-- The `RescuerStats` record of `github.types.ts`. -/
structure RescuerStats where
  username : String
  rescueCount : Nat
  criticalRescues : Nat
  urgentRescues : Nat
  warningRescues : Nat
  approvals : Nat
  changesRequested : Nat
  comments : Nat
  points : Int
  deriving DecidableEq

/-- The fresh record installed by `getOrCreateRescuer`. -/
def newRescuer (username : String) : RescuerStats :=
  { username := username, rescueCount := 0, criticalRescues := 0,
    urgentRescues := 0, warningRescues := 0, approvals := 0,
    changesRequested := 0, comments := 0, points := 0 }

/-- A JavaScript `Map` keyed by login, as an association list: the
`getOrCreate...` helpers append a fresh record when the key is absent. -/
def keyedGetOrCreate {α : Type} (key : α → String) (mk : String → α)
    (m : List α) (u : String) : List α :=
  if m.any (fun s => key s == u) then m else m ++ [mk u]

/-- `getOrCreate` followed by an in-place mutation of the entry for `u`. -/
def keyedUpdate {α : Type} (key : α → String) (mk : String → α)
    (m : List α) (u : String) (f : α → α) : List α :=
  (keyedGetOrCreate key mk m u).map (fun s => if key s == u then f s else s)

/-- Observation: the current record for `u` (the fresh record when `u` has
never been touched, matching what `getOrCreate` would install). -/
def keyedGet {α : Type} (key : α → String) (mk : String → α)
    (m : List α) (u : String) : α :=
  (m.find? (fun s => key s == u)).getD (mk u)

def getOrCreateReviewer (m : List ReviewerStats) (u : String) : List ReviewerStats :=
  keyedGetOrCreate (fun s => s.username) newReviewer m u

def updateReviewer (m : List ReviewerStats) (u : String)
    (f : ReviewerStats → ReviewerStats) : List ReviewerStats :=
  keyedUpdate (fun s => s.username) newReviewer m u f

def reviewerStatsFor (m : List ReviewerStats) (u : String) : ReviewerStats :=
  keyedGet (fun s => s.username) newReviewer m u

def getOrCreateRescuer (m : List RescuerStats) (u : String) : List RescuerStats :=
  keyedGetOrCreate (fun s => s.username) newRescuer m u

def updateRescuer (m : List RescuerStats) (u : String)
    (f : RescuerStats → RescuerStats) : List RescuerStats :=
  keyedUpdate (fun s => s.username) newRescuer m u f

def rescuerStatsFor (m : List RescuerStats) (u : String) : RescuerStats :=
  keyedGet (fun s => s.username) newRescuer m u

/-! ### The shared pagination loop -/

/-- The `while (pagesFetched < 6) { request; process; if (!hasNextPage)
break; cursor = endCursor; pagesFetched++ }` loop shared by
`getLeaderboard`, `getRescueLeaderboard` and `fetchStalePRs`, parameterised
by the per-page processing fold.  `remaining` is the remaining page budget
(`6 - pagesFetched`); a run starts at 6.  The result pairs the run outcome
(a request failure aborts the whole run with that error) with the list of
cursors actually requested, in order. -/
def fetchLoop {σ : Type} (src : Option String → Except String Page)
    (process : σ → Page → σ) (s : σ) (cursor : Option String) :
    Nat → Except String σ × List (Option String)
  | 0 => (.ok s, [])
  | remaining + 1 =>
    match src cursor with
    | .error e => (.error e, [cursor])
    | .ok page =>
      let s1 := process s page
      if page.pageInfo.hasNextPage then
        let rest := fetchLoop src process s1 page.pageInfo.endCursor remaining
        (rest.1, cursor :: rest.2)
      else
        (.ok s1, [cursor])

/-! ### GraphQL leaderboard (`getLeaderboard`) -/

/-- The `switch (review.state)` body of `getLeaderboard`:
`reviewCount++` then the per-state counter and points (the `default`
branch treats any other state as a commented review). -/
def leaderboardReviewApply (r : ReviewNode) (s : ReviewerStats) : ReviewerStats :=
  let s1 := { s with reviewCount := s.reviewCount + 1 }
  if r.state == "APPROVED" then
    { s1 with approvals := s1.approvals + 1, points := s1.points + 50 }
  else if r.state == "CHANGES_REQUESTED" then
    { s1 with changesRequested := s1.changesRequested + 1, points := s1.points + 30 }
  else
    { s1 with comments := s1.comments + 1, points := s1.points + 10 }

/-- One iteration of the review loop of `getLeaderboard`: skip an
unattributed author or one already in `reviewedUsers`; otherwise mark the
author and count the review. -/
def leaderboardReviewStep (st : List ReviewerStats × List String)
    (r : ReviewNode) : List ReviewerStats × List String :=
  match r.author with
  | none => st
  | some username =>
    if st.2.contains username then st
    else (updateReviewer st.1 username (leaderboardReviewApply r), username :: st.2)

/-- One iteration of the plain-comment loop of `getLeaderboard`:
`totalComments++` and 5 points for every attributed comment. -/
def leaderboardCommentStep (m : List ReviewerStats) (c : CommentNode) :
    List ReviewerStats :=
  match c.author with
  | none => m
  | some username =>
    updateReviewer m username (fun s =>
      { s with totalComments := s.totalComments + 1, points := s.points + 5 })

/-- Per-PR processing of `getLeaderboard`: the review loop with a fresh
`reviewedUsers` set, then the comment loop. -/
def leaderboardProcessPR (m : List ReviewerStats) (pr : PRNode) :
    List ReviewerStats :=
  let st := pr.reviews.foldl leaderboardReviewStep (m, [])
  pr.comments.foldl leaderboardCommentStep st.1

def leaderboardProcessPage (m : List ReviewerStats) (page : Page) :
    List ReviewerStats :=
  page.nodes.foldl leaderboardProcessPR m

/-- The final `.sort((a, b) => b.points - a.points)` comparator: descending
by points. -/
def byPointsDesc (a b : ReviewerStats) : Prop := b.points ≤ a.points

instance : DecidableRel byPointsDesc :=
  fun a b => inferInstanceAs (Decidable (b.points ≤ a.points))

instance : IsTotal ReviewerStats byPointsDesc :=
  ⟨fun a b => le_total b.points a.points⟩

instance : IsTrans ReviewerStats byPointsDesc :=
  ⟨fun _ _ _ hab hbc => le_trans hbc hab⟩

/-- `getLeaderboard`: paginate (budget 6 pages), fold every PR into the
reviewer map, and return the entries sorted descending by points. -/
def getLeaderboard (src : Option String → Except String Page) :
    Except String (List ReviewerStats) :=
  (fetchLoop src leaderboardProcessPage [] none 6).1.map
    (fun m => List.insertionSort byPointsDesc m)

/-! ### Rescue leaderboard (`getRescueLeaderboard`) -/

inductive RescueTier where
  | critical
  | urgent
  | warning
  deriving DecidableEq

/-- The review branch chain of `getRescueLeaderboard`: pick the tier
counter and `rescuePoints = Math.floor(base * multiplier)` from the
unit-scaled thresholds (hours: 6/3, days: 14/7; the final `else` is the
warning arm). -/
def rescueReviewAward (timeUnit : TimeUnit) (ageAtReview mult : ℚ) :
    RescueTier × Int :=
  match timeUnit with
  | .hours =>
    if 6 ≤ ageAtReview then (.critical, ⌊100 * mult⌋)
    else if 3 ≤ ageAtReview then (.urgent, ⌊50 * mult⌋)
    else (.warning, ⌊25 * mult⌋)
  | .days =>
    if 14 ≤ ageAtReview then (.critical, ⌊100 * mult⌋)
    else if 7 ≤ ageAtReview then (.urgent, ⌊50 * mult⌋)
    else (.warning, ⌊25 * mult⌋)

/-- The comment branch chain of `getRescueLeaderboard`: same thresholds,
with the hard-coded 50% values 50 / 25 / 12. -/
def rescueCommentAward (timeUnit : TimeUnit) (ageAtComment : ℚ) :
    RescueTier × Int :=
  match timeUnit with
  | .hours =>
    if 6 ≤ ageAtComment then (.critical, 50)
    else if 3 ≤ ageAtComment then (.urgent, 25)
    else (.warning, 12)
  | .days =>
    if 14 ≤ ageAtComment then (.critical, 50)
    else if 7 ≤ ageAtComment then (.urgent, 25)
    else (.warning, 12)

/-- `stats.criticalRescues++` / `urgentRescues++` / `warningRescues++`. -/
def bumpTier (t : RescueTier) (s : RescuerStats) : RescuerStats :=
  match t with
  | .critical => { s with criticalRescues := s.criticalRescues + 1 }
  | .urgent => { s with urgentRescues := s.urgentRescues + 1 }
  | .warning => { s with warningRescues := s.warningRescues + 1 }

/-- The stat mutation for a counted rescue review: `rescueCount++`, the
tier counter from `rescueReviewAward` with multiplier 1 for a formal
review (APPROVED / CHANGES_REQUESTED) and 0.5 otherwise, `points +=
rescuePoints`, then the disposition counter (`default` branch counts as a
comment). -/
def rescueReviewApply (timeUnit : TimeUnit) (ageAtReview : ℚ)
    (r : ReviewNode) (s : RescuerStats) : RescuerStats :=
  let isFullReview := r.state == "APPROVED" || r.state == "CHANGES_REQUESTED"
  let mult : ℚ := if isFullReview then 1 else 1 / 2
  let award := rescueReviewAward timeUnit ageAtReview mult
  let s1 := bumpTier award.1 { s with rescueCount := s.rescueCount + 1 }
  let s2 := { s1 with points := s1.points + award.2 }
  if r.state == "APPROVED" then { s2 with approvals := s2.approvals + 1 }
  else if r.state == "CHANGES_REQUESTED" then
    { s2 with changesRequested := s2.changesRequested + 1 }
  else { s2 with comments := s2.comments + 1 }

/-- One iteration of the review loop of `getRescueLeaderboard`: skip an
unattributed or already seen author, otherwise mark the author in
`reviewedUsers` and, when `ageAtReview ≥ minAge`, count the rescue. -/
def rescueReviewStep (minAge : ℚ) (timeUnit : TimeUnit) (prCreatedAt : Int)
    (st : List RescuerStats × List String) (r : ReviewNode) :
    List RescuerStats × List String :=
  match r.author with
  | none => st
  | some username =>
    if st.2.contains username then st
    else
      let ageAtReview := ageInUnit timeUnit (r.submittedAt - prCreatedAt)
      if ageAtReview < minAge then (st.1, username :: st.2)
      else
        (updateRescuer st.1 username (rescueReviewApply timeUnit ageAtReview r),
         username :: st.2)

/-- The stat mutation for a counted rescue comment: `rescueCount++`, the
tier counter and the 50% points from `rescueCommentAward`, `comments++`. -/
def rescueCommentApply (timeUnit : TimeUnit) (ageAtComment : ℚ)
    (s : RescuerStats) : RescuerStats :=
  let award := rescueCommentAward timeUnit ageAtComment
  let s1 := bumpTier award.1 { s with rescueCount := s.rescueCount + 1 }
  { s1 with points := s1.points + award.2, comments := s1.comments + 1 }

/-- One iteration of the comment loop of `getRescueLeaderboard`
(`countComments` path): skip an unattributed author, one already in
`commentedUsers`, or one in `reviewedUsers`; otherwise mark the author
and, when `ageAtComment ≥ minAge`, count the rescue at 50% value. -/
def rescueCommentStep (minAge : ℚ) (timeUnit : TimeUnit) (prCreatedAt : Int)
    (reviewedUsers : List String)
    (st : List RescuerStats × List String) (c : CommentNode) :
    List RescuerStats × List String :=
  match c.author with
  | none => st
  | some username =>
    if st.2.contains username || reviewedUsers.contains username then st
    else
      let ageAtComment := ageInUnit timeUnit (c.createdAt - prCreatedAt)
      if ageAtComment < minAge then (st.1, username :: st.2)
      else
        (updateRescuer st.1 username (rescueCommentApply timeUnit ageAtComment),
         username :: st.2)

/-- Per-PR processing of `getRescueLeaderboard`: the review loop with a
fresh `reviewedUsers` set, then (if `countComments`) the comment loop with
a fresh `commentedUsers` set that also consults `reviewedUsers`. -/
def rescueProcessPR (minAge : ℚ) (timeUnit : TimeUnit) (countComments : Bool)
    (m : List RescuerStats) (pr : PRNode) : List RescuerStats :=
  let st := pr.reviews.foldl (rescueReviewStep minAge timeUnit pr.createdAt) (m, [])
  if countComments then
    (pr.comments.foldl (rescueCommentStep minAge timeUnit pr.createdAt st.2)
      (st.1, [])).1
  else st.1

def rescueProcessPage (minAge : ℚ) (timeUnit : TimeUnit) (countComments : Bool)
    (m : List RescuerStats) (page : Page) : List RescuerStats :=
  page.nodes.foldl (rescueProcessPR minAge timeUnit countComments) m

def byPointsDescR (a b : RescuerStats) : Prop := b.points ≤ a.points

instance : DecidableRel byPointsDescR :=
  fun a b => inferInstanceAs (Decidable (b.points ≤ a.points))

instance : IsTotal RescuerStats byPointsDescR :=
  ⟨fun a b => le_total b.points a.points⟩

instance : IsTrans RescuerStats byPointsDescR :=
  ⟨fun _ _ _ hab hbc => le_trans hbc hab⟩

/-- `getRescueLeaderboard(minAge = 7, timeUnit = 'days',
countComments = true)`. -/
def getRescueLeaderboard (src : Option String → Except String Page)
    (minAge : ℚ) (timeUnit : TimeUnit) (countComments : Bool) :
    Except String (List RescuerStats) :=
  (fetchLoop src (rescueProcessPage minAge timeUnit countComments) [] none 6).1.map
    (fun m => List.insertionSort byPointsDescR m)

/-! ### Staleness classifier and neglected-PR selection -/

inductive UrgencyLevel where
  | normal
  | warning
  | urgent
  | critical
  deriving DecidableEq

structure PRStatus where
  urgency : UrgencyLevel
  message : String
  color : Nat
  emoji : String
  deriving DecidableEq

/-- `criticalThreshold = timeUnit === 'hours' ? 6 : 14`. -/
def criticalThreshold : TimeUnit → Nat
  | .hours => 6
  | .days => 14

/-- `urgentThreshold = timeUnit === 'hours' ? 3 : 7`. -/
def urgentThreshold : TimeUnit → Nat
  | .hours => 3
  | .days => 7

/-- `warningThreshold = timeUnit === 'hours' ? 1 : 3`. -/
def warningThreshold : TimeUnit → Nat
  | .hours => 1
  | .days => 3

/-- `units = timeUnit === 'hours' ? 'hours' : 'days'`. -/
def unitsWord : TimeUnit → String
  | .hours => "hours"
  | .days => "days"

/-- `calculatePRStatus` of the latest snapshot: reviewed PRs are always
safe; otherwise the first matching inclusive threshold rule in the order
critical, urgent, warning; otherwise a fresh PR. -/
def calculatePRStatus (age : ℚ) (reviewCount commentCount : Nat)
    (timeUnit : TimeUnit) : PRStatus :=
  if 0 < reviewCount then
    { urgency := .normal, message := "✅ Reviewed", color := 0x00ff00, emoji := "✅" }
  else if (criticalThreshold timeUnit : ℚ) ≤ age then
    { urgency := .critical
      message :=
        if 0 < commentCount then
          "🔴 CRITICAL: Discussed but not reviewed for " ++
            toString (criticalThreshold timeUnit) ++ "+ " ++ unitsWord timeUnit
        else
          "🔥 CRITICAL: No activity for " ++
            toString (criticalThreshold timeUnit) ++ "+ " ++ unitsWord timeUnit
      color := 0xff0000
      emoji := "🔥" }
  else if (urgentThreshold timeUnit : ℚ) ≤ age then
    { urgency := .urgent
      message :=
        if 0 < commentCount then "⚠️ URGENT: Comments but no review"
        else
          "🟠 URGENT: No activity for " ++
            toString (urgentThreshold timeUnit) ++ "+ " ++ unitsWord timeUnit
      color := 0xff8800
      emoji := "🟠" }
  else if (warningThreshold timeUnit : ℚ) ≤ age then
    { urgency := .warning
      message :=
        if 0 < commentCount then "🟡 WARNING: Discussed, no review"
        else "💭 Needs attention"
      color := 0xffff00
      emoji := "🟡" }
  else
    { urgency := .normal, message := "🆕 New PR", color := 0x66ff66, emoji := "🆕" }

/-- The `StalePR` record of `github.types.ts`. -/
structure StalePR where
  number : Nat
  title : String
  url : String
  createdAt : Int
  reviewCount : Nat
  commentCount : Nat
  deriving DecidableEq

/-- Per-PR processing of `fetchStalePRs`: compute the (fractional) age in
the requested unit, skip PRs younger than `staleTime`, skip reviewed PRs
when `onlyUnreviewed`, and collect the rest. -/
def staleProcessPR (staleTime : ℚ) (onlyUnreviewed : Bool)
    (timeUnit : TimeUnit) (now : Int) (acc : List StalePR) (pr : PRNode) :
    List StalePR :=
  let age := ageInUnit timeUnit (now - pr.createdAt)
  if age < staleTime then acc
  else
    let reviewCount := pr.reviews.length
    if onlyUnreviewed ∧ 0 < reviewCount then acc
    else
      acc ++ [{ number := pr.number, title := pr.title, url := pr.url,
                createdAt := pr.createdAt, reviewCount := reviewCount,
                commentCount := pr.comments.length }]

def staleProcessPage (staleTime : ℚ) (onlyUnreviewed : Bool)
    (timeUnit : TimeUnit) (now : Int) (acc : List StalePR) (page : Page) :
    List StalePR :=
  page.nodes.foldl (staleProcessPR staleTime onlyUnreviewed timeUnit now) acc

/-- `fetchStalePRs(staleTime = 7, onlyUnreviewed = true,
timeUnit = 'days')`. -/
def fetchStalePRs (src : Option String → Except String Page) (staleTime : ℚ)
    (onlyUnreviewed : Bool) (timeUnit : TimeUnit) (now : Int) :
    Except String (List StalePR) :=
  (fetchLoop src (staleProcessPage staleTime onlyUnreviewed timeUnit now)
    [] none 6).1

/-- The `PRWithStatus` record of `github.types.ts`. -/
structure PRWithStatus extends StalePR where
  ageDays : Int
  status : PRStatus
  deriving DecidableEq

/-- The status pass of `getTop10MostNeglectedPRs`: `age =
Math.floor(ageMs / unit)` and `calculatePRStatus(age, reviewCount,
commentCount, timeUnit)`. -/
def withStatus (timeUnit : TimeUnit) (now : Int) (pr : StalePR) : PRWithStatus :=
  let age : Int := ⌊ageInUnit timeUnit (now - pr.createdAt)⌋
  { toStalePR := pr
    ageDays := age
    status := calculatePRStatus (age : ℚ) pr.reviewCount pr.commentCount timeUnit }

/-- `urgencyOrder: critical 4, urgent 3, warning 2, normal 1`. -/
def urgencyOrder : UrgencyLevel → Nat
  | .critical => 4
  | .urgent => 3
  | .warning => 2
  | .normal => 1

/-- The neglected-PR comparator: urgency rank descending, ties broken by
`ageDays` descending (older first). -/
def byNeglect (a b : PRWithStatus) : Prop :=
  urgencyOrder b.status.urgency < urgencyOrder a.status.urgency ∨
    (urgencyOrder a.status.urgency = urgencyOrder b.status.urgency ∧
      b.ageDays ≤ a.ageDays)

instance : DecidableRel byNeglect := fun _ _ =>
  inferInstanceAs (Decidable (_ ∨ _))

instance : IsTotal PRWithStatus byNeglect := by
  constructor
  intro a b
  unfold byNeglect
  rcases lt_trichotomy (urgencyOrder a.status.urgency) (urgencyOrder b.status.urgency) with h | h | h
  · exact Or.inr (Or.inl h)
  · rcases le_total b.ageDays a.ageDays with h2 | h2
    · exact Or.inl (Or.inr ⟨h, h2⟩)
    · exact Or.inr (Or.inr ⟨h.symm, h2⟩)
  · exact Or.inl (Or.inl h)

instance : IsTrans PRWithStatus byNeglect := by
  constructor
  intro a b c hab hbc
  unfold byNeglect at *
  rcases hab with h1 | ⟨h1, h1a⟩ <;> rcases hbc with h2 | ⟨h2, h2a⟩
  · exact Or.inl (lt_trans h2 h1)
  · exact Or.inl (h2 ▸ h1)
  · exact Or.inl (h1 ▸ h2)
  · exact Or.inr ⟨h1.trans h2, le_trans h2a h1a⟩

/-- `getTop10MostNeglectedPRs(minTime = 3, timeUnit = 'days')`: fetch PRs
at least `minTime` old (reviewed ones included), attach a floored age and
a status, sort most neglected first, return the top 10. -/
def getTop10MostNeglectedPRs (src : Option String → Except String Page)
    (minTime : ℚ) (timeUnit : TimeUnit) (now : Int) :
    Except String (List PRWithStatus) :=
  (fetchStalePRs src minTime false timeUnit now).map (fun stalePRs =>
    (List.insertionSort byNeglect (stalePRs.map (withStatus timeUnit now))).take 10)

/-! ### REST service (`src/src/services/GithubService.ts`) -/

/-- A review of the REST `listReviews` endpoint. -/
structure RestReview where
  user : Option String
  state : String
  deriving DecidableEq

/-- An issue comment of the REST `listComments` endpoint. -/
structure RestComment where
  user : Option String
  deriving DecidableEq

/-- An emoji reaction of the REST `listForIssue` endpoint. -/
structure RestReaction where
  user : Option String
  deriving DecidableEq

/-- A pull request together with the outcomes of the three per-PR REST
calls made for it (each call may reject). -/
structure RestPR where
  number : Nat
  reviewsResult : Except String (List RestReview)
  commentsResult : Except String (List RestComment)
  reactionsResult : Except String (List RestReaction)

/-- `fetchPRReviews`: on a rejected request the `catch` block logs and
returns `[]` — the run continues. -/
def fetchPRReviews (pr : RestPR) : List RestReview :=
  match pr.reviewsResult with
  | .ok data => data
  | .error _ => []

/-- `fetchPRComments`: same `catch`-to-`[]` recovery. -/
def fetchPRComments (pr : RestPR) : List RestComment :=
  match pr.commentsResult with
  | .ok data => data
  | .error _ => []

/-- `fetchPRReactions`: same `catch`-to-`[]` recovery. -/
def fetchPRReactions (pr : RestPR) : List RestReaction :=
  match pr.reactionsResult with
  | .ok data => data
  | .error _ => []

/-- The review loop of `getReviewerStats`: `reviewCount++` for every
attributed review (no per-actor deduplication), then the
`if / else if / else if` disposition chain — with no final `else`. -/
def restReviewStep (m : List ReviewerStats) (r : RestReview) :
    List ReviewerStats :=
  match r.user with
  | none => m
  | some username =>
    updateReviewer m username (fun s =>
      let s1 := { s with reviewCount := s.reviewCount + 1 }
      if r.state == "APPROVED" then
        { s1 with approvals := s1.approvals + 1, points := s1.points + 50 }
      else if r.state == "CHANGES_REQUESTED" then
        { s1 with changesRequested := s1.changesRequested + 1, points := s1.points + 30 }
      else if r.state == "COMMENTED" then
        { s1 with comments := s1.comments + 1, points := s1.points + 10 }
      else s1)

/-- The comment loop of `getReviewerStats`: `totalComments++`, 5 points. -/
def restCommentStep (m : List ReviewerStats) (c : RestComment) :
    List ReviewerStats :=
  match c.user with
  | none => m
  | some username =>
    updateReviewer m username (fun s =>
      { s with totalComments := s.totalComments + 1, points := s.points + 5 })

/-- The reaction loop of `getReviewerStats`: `reactions++`, 2 points. -/
def restReactionStep (m : List ReviewerStats) (r : RestReaction) :
    List ReviewerStats :=
  match r.user with
  | none => m
  | some username =>
    updateReviewer m username (fun s =>
      { s with reactions := s.reactions + 1, points := s.points + 2 })

/-- Per-PR processing of `getReviewerStats`: reviews, then comments, then
reactions, each obtained through the `catch`-to-`[]` fetchers. -/
def restProcessPR (m : List ReviewerStats) (pr : RestPR) : List ReviewerStats :=
  let m1 := (fetchPRReviews pr).foldl restReviewStep m
  let m2 := (fetchPRComments pr).foldl restCommentStep m1
  (fetchPRReactions pr).foldl restReactionStep m2

/-- `getReviewerStats`: a failed PR-list fetch is rethrown wrapped by the
outer `catch`; otherwise every fetched PR is folded in and the result is
sorted descending by points.  The input models the concatenated
`pulls.list` responses. -/
def getReviewerStats (prsResult : Except String (List RestPR)) :
    Except String (List ReviewerStats) :=
  match prsResult with
  | .error e => .error ("Failed to fetch reviewer stats: " ++ e)
  | .ok prs => .ok (List.insertionSort byPointsDesc (prs.foldl restProcessPR []))

/-! ### Observation helpers used to state the claims -/

/-- Observation: the rescue tier point bases of the scoring table
(critical 100, urgent 50, warning 25). -/
def tierBase : RescueTier → Nat
  | .critical => 100
  | .urgent => 50
  | .warning => 25

/-- Observation: the cumulative effect of `k` counted plain comments on a
reviewer record (`totalComments += k`, `points += 5k`). -/
def plainCommentApply (k : Nat) (s : ReviewerStats) : ReviewerStats :=
  { s with totalComments := s.totalComments + k, points := s.points + 5 * k }

/-- Observation: the additive point decomposition of the scoring table
(50 per approval, 30 per change request, 10 per commented review, 5 per
plain comment, 2 per reaction). -/
def pointsInvariant (s : ReviewerStats) : Prop :=
  s.points = 50 * (s.approvals : Int) + 30 * (s.changesRequested : Int) +
    10 * (s.comments : Int) + 5 * (s.totalComments : Int) + 2 * (s.reactions : Int)

/-! ### Concrete fixtures used by witnesses and counterexamples -/

/-- A PR created at epoch 0 with one approval submitted exactly one day
later. -/
def prApprovedAfterOneDay : PRNode :=
  { number := 1, title := "t", url := "u", createdAt := 0,
    reviews := [{ state := "APPROVED", author := some "alice", submittedAt := 86400000 }],
    comments := [] }

/-- A PR with no review and no comment, created at epoch 0. -/
def prNoActivity : PRNode :=
  { number := 2, title := "t", url := "u", createdAt := 0,
    reviews := [], comments := [] }

/-- A PR with one approval by alice and one plain comment by bob. -/
def prApprovalAndComment : PRNode :=
  { number := 3, title := "t", url := "u", createdAt := 0,
    reviews := [{ state := "APPROVED", author := some "alice", submittedAt := 0 }],
    comments := [{ author := some "bob", createdAt := 0 }] }

/-- A REST PR whose only review has the unknown state `PENDING`. -/
def prPendingReview : RestPR :=
  { number := 1,
    reviewsResult := .ok [{ user := some "alice", state := "PENDING" }],
    commentsResult := .ok [], reactionsResult := .ok [] }

/-- A REST PR on which the same actor submitted two approvals. -/
def prDoubleReview : RestPR :=
  { number := 2,
    reviewsResult := .ok [{ user := some "alice", state := "APPROVED" },
                          { user := some "alice", state := "APPROVED" }],
    commentsResult := .ok [], reactionsResult := .ok [] }

/-- A REST PR whose reviews fetch rejects while its comments fetch
succeeds with one comment. -/
def prFailingReviewsFetch : RestPR :=
  { number := 7,
    reviewsResult := .error "boom",
    commentsResult := .ok [{ user := some "alice" }],
    reactionsResult := .ok [] }

/-- A REST PR with one approval by alice. -/
def prRestApproval : RestPR :=
  { number := 4,
    reviewsResult := .ok [{ user := some "alice", state := "APPROVED" }],
    commentsResult := .ok [], reactionsResult := .ok [] }

/-- A source whose single page is empty and final. -/
def emptySrc : Option String → Except String Page :=
  fun _ => .ok { pageInfo := { hasNextPage := false, endCursor := none }, nodes := [] }

/-- A source with a single final page holding the given PRs. -/
def onePageSrc (prs : List PRNode) : Option String → Except String Page :=
  fun _ => .ok { pageInfo := { hasNextPage := false, endCursor := none }, nodes := prs }

/-- A source that always reports a further page (an unbounded history). -/
def endlessSrc : Option String → Except String Page :=
  fun _ => .ok { pageInfo := { hasNextPage := true, endCursor := some "c" }, nodes := [] }

/-! ### Association-list map lemmas -/

lemma contains_iff_mem (l : List String) (a : String) :
    l.contains a = true ↔ a ∈ l :=
  List.elem_iff

section KeyedLemmas

variable {α : Type} (key : α → String) (mk : String → α)

lemma find?_selectiveMap (u : String) (f : α → α)
    (hf : ∀ s, key s = u → key (f s) = key s) (m : List α) :
    (m.map (fun s => if key s == u then f s else s)).find? (fun s => key s == u)
      = (m.find? (fun s => key s == u)).map f := by
  induction m with
  | nil => rfl
  | cons a t ih =>
    by_cases h : key a = u
    · have hba : (key a == u) = true := by simpa using h
      have hfa : (key (f a) == u) = true := by simpa [hf a h] using h
      have h1 : (f a :: t.map (fun s => if key s == u then f s else s)).find?
          (fun s => key s == u) = some (f a) := List.find?_cons_of_pos _ hfa
      have h2 : (a :: t).find? (fun s => key s == u) = some a :=
        List.find?_cons_of_pos _ hba
      simp only [List.map_cons, hba, if_true]
      rw [h1, h2]
      rfl
    · have hba : (key a == u) = false := by simpa using h
      have h1 : (a :: t.map (fun s => if key s == u then f s else s)).find?
          (fun s => key s == u) = (t.map (fun s => if key s == u then f s else s)).find?
          (fun s => key s == u) := List.find?_cons_of_neg _ (by simp [h])
      have h2 : (a :: t).find? (fun s => key s == u) = t.find? (fun s => key s == u) :=
        List.find?_cons_of_neg _ (by simp [h])
      simp only [List.map_cons, hba, Bool.false_eq_true, if_false]
      rw [h1, h2]
      exact ih

lemma find?_selectiveMap_other (u v : String) (f : α → α) (huv : u ≠ v)
    (hf : ∀ s, key s = v → key (f s) = key s) (m : List α) :
    (m.map (fun s => if key s == v then f s else s)).find? (fun s => key s == u)
      = m.find? (fun s => key s == u) := by
  induction m with
  | nil => rfl
  | cons a t ih =>
    by_cases hv : key a = v
    · have hku : key (f a) = key a := hf a hv
      have hau : ¬ key a = u := fun h => huv (by rw [h] at hv; exact hv)
      have hbv : (key a == v) = true := by simpa using hv
      have h1 : (f a :: t.map (fun s => if key s == v then f s else s)).find?
          (fun s => key s == u) = (t.map (fun s => if key s == v then f s else s)).find?
          (fun s => key s == u) := List.find?_cons_of_neg _ (by simp [hku, hau])
      have h2 : (a :: t).find? (fun s => key s == u) = t.find? (fun s => key s == u) :=
        List.find?_cons_of_neg _ (by simp [hau])
      simp only [List.map_cons, hbv, if_true]
      rw [h1, h2]
      exact ih
    · have hbv : (key a == v) = false := by simpa using hv
      simp only [List.map_cons, hbv, Bool.false_eq_true, if_false]
      by_cases hu : key a = u
      · have h1 : (a :: t.map (fun s => if key s == v then f s else s)).find?
            (fun s => key s == u) = some a := List.find?_cons_of_pos _ (by simpa using hu)
        have h2 : (a :: t).find? (fun s => key s == u) = some a :=
          List.find?_cons_of_pos _ (by simpa using hu)
        rw [h1, h2]
      · have h1 : (a :: t.map (fun s => if key s == v then f s else s)).find?
            (fun s => key s == u) = (t.map (fun s => if key s == v then f s else s)).find?
            (fun s => key s == u) := List.find?_cons_of_neg _ (by simp [hu])
        have h2 : (a :: t).find? (fun s => key s == u) = t.find? (fun s => key s == u) :=
          List.find?_cons_of_neg _ (by simp [hu])
        rw [h1, h2]
        exact ih

lemma keyedGet_update_self (u : String) (f : α → α)
    (hmk : key (mk u) = u) (hf : ∀ s, key s = u → key (f s) = key s)
    (m : List α) :
    keyedGet key mk (keyedUpdate key mk m u f) u = f (keyedGet key mk m u) := by
  unfold keyedUpdate keyedGetOrCreate keyedGet
  by_cases h : m.any (fun s => key s == u) = true
  · simp only [h, if_true]
    rw [find?_selectiveMap key u f hf]
    cases hfind : m.find? (fun s => key s == u) with
    | none =>
      exfalso
      rw [List.find?_eq_none] at hfind
      rcases List.any_eq_true.mp h with ⟨x, hx, hpx⟩
      exact hfind x hx hpx
    | some s0 => simp
  · simp only [h, Bool.false_eq_true, if_false]
    rw [find?_selectiveMap key u f hf]
    have hnone : m.find? (fun s => key s == u) = none := by
      rw [List.find?_eq_none]
      intro x hx hpx
      exact h (List.any_eq_true.mpr ⟨x, hx, hpx⟩)
    rw [List.find?_append, hnone]
    have hp : (key (mk u) == u) = true := by simpa using hmk
    have hone : ([mk u].find? fun s => key s == u) = some (mk u) :=
      List.find?_cons_of_pos _ hp
    simp [hone, hnone]

lemma keyedGet_update_other (u v : String) (f : α → α) (huv : u ≠ v)
    (hmkv : key (mk v) = v) (hf : ∀ s, key s = v → key (f s) = key s)
    (m : List α) :
    keyedGet key mk (keyedUpdate key mk m v f) u = keyedGet key mk m u := by
  unfold keyedUpdate keyedGetOrCreate keyedGet
  by_cases h : m.any (fun s => key s == v) = true
  · simp only [h, if_true]
    rw [find?_selectiveMap_other key u v f huv hf]
  · simp only [h, Bool.false_eq_true, if_false]
    rw [find?_selectiveMap_other key u v f huv hf, List.find?_append]
    have hone : ([mk v].find? fun s => key s == u) = none := by
      rw [List.find?_eq_none]
      intro x hx hpx
      simp at hx
      subst hx
      rw [hmkv] at hpx
      have hvu : v = u := by simpa using hpx
      exact huv hvu.symm
    simp [hone]

lemma keyedUpdate_forall (P : α → Prop) (m : List α) (u : String) (f : α → α)
    (hm : ∀ s ∈ m, P s) (hmk : P (mk u)) (hf : ∀ s, P s → P (f s)) :
    ∀ s ∈ keyedUpdate key mk m u f, P s := by
  intro s hs
  unfold keyedUpdate keyedGetOrCreate at hs
  rcases List.mem_map.mp hs with ⟨pre, hpre, hval⟩
  have hpreP : P pre := by
    by_cases h : m.any (fun s => key s == u) = true
    · simp only [h, if_true] at hpre
      exact hm pre hpre
    · simp only [h, Bool.false_eq_true, if_false, List.mem_append] at hpre
      rcases hpre with h1 | h1
      · exact hm pre h1
      · simp at h1
        subst h1
        exact hmk
  subst hval
  split
  · exact hf pre hpreP
  · exact hpreP

end KeyedLemmas

lemma reviewerStatsFor_update_self (m : List ReviewerStats) (u : String)
    (f : ReviewerStats → ReviewerStats) (hf : ∀ s, (f s).username = s.username) :
    reviewerStatsFor (updateReviewer m u f) u = f (reviewerStatsFor m u) :=
  keyedGet_update_self _ _ u f rfl (fun s _ => hf s) m

lemma reviewerStatsFor_update_other (m : List ReviewerStats) (u v : String)
    (f : ReviewerStats → ReviewerStats) (huv : u ≠ v)
    (hf : ∀ s, (f s).username = s.username) :
    reviewerStatsFor (updateReviewer m v f) u = reviewerStatsFor m u :=
  keyedGet_update_other _ _ u v f huv rfl (fun s _ => hf s) m

lemma rescuerStatsFor_update_self (m : List RescuerStats) (u : String)
    (f : RescuerStats → RescuerStats) (hf : ∀ s, (f s).username = s.username) :
    rescuerStatsFor (updateRescuer m u f) u = f (rescuerStatsFor m u) :=
  keyedGet_update_self _ _ u f rfl (fun s _ => hf s) m

lemma rescuerStatsFor_update_other (m : List RescuerStats) (u v : String)
    (f : RescuerStats → RescuerStats) (huv : u ≠ v)
    (hf : ∀ s, (f s).username = s.username) :
    rescuerStatsFor (updateRescuer m v f) u = rescuerStatsFor m u :=
  keyedGet_update_other _ _ u v f huv rfl (fun s _ => hf s) m

/-! ### Field preservation of the stat mutators -/

lemma leaderboardReviewApply_username (r : ReviewNode) (s : ReviewerStats) :
    (leaderboardReviewApply r s).username = s.username := by
  unfold leaderboardReviewApply
  split_ifs <;> rfl

lemma bumpTier_username (t : RescueTier) (s : RescuerStats) :
    (bumpTier t s).username = s.username := by
  cases t <;> rfl

lemma rescueReviewApply_username (timeUnit : TimeUnit) (age : ℚ)
    (r : ReviewNode) (s : RescuerStats) :
    (rescueReviewApply timeUnit age r s).username = s.username := by
  unfold rescueReviewApply
  split_ifs <;> simp [bumpTier_username]

lemma rescueCommentApply_username (timeUnit : TimeUnit) (age : ℚ)
    (s : RescuerStats) :
    (rescueCommentApply timeUnit age s).username = s.username := by
  unfold rescueCommentApply
  simp [bumpTier_username]

lemma bumpTier_rescueCount (t : RescueTier) (s : RescuerStats) :
    (bumpTier t s).rescueCount = s.rescueCount := by
  cases t <;> rfl

lemma rescueReviewApply_rescueCount (timeUnit : TimeUnit) (age : ℚ)
    (r : ReviewNode) (s : RescuerStats) :
    (rescueReviewApply timeUnit age r s).rescueCount = s.rescueCount + 1 := by
  unfold rescueReviewApply
  split_ifs <;> simp [bumpTier_rescueCount]

lemma rescueCommentApply_rescueCount (timeUnit : TimeUnit) (age : ℚ)
    (s : RescuerStats) :
    (rescueCommentApply timeUnit age s).rescueCount = s.rescueCount + 1 := by
  unfold rescueCommentApply
  simp [bumpTier_rescueCount]

/-! ### Per-PR characterization of the leaderboard fold -/

lemma leaderboardReviews_skip (rs : List ReviewNode) :
    ∀ (st : List ReviewerStats × List String) (u : String), u ∈ st.2 →
      reviewerStatsFor (rs.foldl leaderboardReviewStep st).1 u = reviewerStatsFor st.1 u
        ∧ u ∈ (rs.foldl leaderboardReviewStep st).2 := by
  induction rs with
  | nil => exact fun st u hu => ⟨rfl, hu⟩
  | cons r t ih =>
    intro st u hu
    rw [List.foldl_cons]
    cases hr : r.author with
    | none =>
      have hstep : leaderboardReviewStep st r = st := by
        simp [leaderboardReviewStep, hr]
      rw [hstep]
      exact ih st u hu
    | some v =>
      by_cases hv : v ∈ st.2
      · have hstep : leaderboardReviewStep st r = st := by
          simp [leaderboardReviewStep, hr, hv]
        rw [hstep]
        exact ih st u hu
      · have hstep : leaderboardReviewStep st r =
            (updateReviewer st.1 v (leaderboardReviewApply r), v :: st.2) := by
          simp [leaderboardReviewStep, hr, hv]
        have huv : u ≠ v := fun h => hv (h ▸ hu)
        rw [hstep]
        have hrec := ih (updateReviewer st.1 v (leaderboardReviewApply r), v :: st.2) u
          (List.mem_cons_of_mem _ hu)
        refine ⟨?_, hrec.2⟩
        rw [hrec.1]
        exact reviewerStatsFor_update_other st.1 u v _ huv (leaderboardReviewApply_username r)

lemma leaderboardReviews_char (rs : List ReviewNode) :
    ∀ (m : List ReviewerStats) (set : List String) (u : String), u ∉ set →
      reviewerStatsFor (rs.foldl leaderboardReviewStep (m, set)).1 u =
        (match rs.find? (fun r => r.author == some u) with
         | none => reviewerStatsFor m u
         | some r => leaderboardReviewApply r (reviewerStatsFor m u)) := by
  induction rs with
  | nil => intro m set u _; rfl
  | cons r t ih =>
    intro m set u hu
    rw [List.foldl_cons]
    cases hr : r.author with
    | none =>
      have hstep : leaderboardReviewStep (m, set) r = (m, set) := by
        simp [leaderboardReviewStep, hr]
      have hp : ((fun x => x.author == some u) r) = false := by simp [hr]
      have hfind : (r :: t).find? (fun x => x.author == some u) =
          t.find? (fun x => x.author == some u) := List.find?_cons_of_neg _ (by simp [hp])
      rw [hstep, hfind]
      exact ih m set u hu
    | some v =>
      by_cases hvu : v = u
      · subst hvu
        have hstep : leaderboardReviewStep (m, set) r =
            (updateReviewer m v (leaderboardReviewApply r), v :: set) := by
          simp [leaderboardReviewStep, hr, hu]
        have hp : ((fun x => x.author == some v) r) = true := by simp [hr]
        have hfind : (r :: t).find? (fun x => x.author == some v) = some r :=
          List.find?_cons_of_pos _ hp
        rw [hstep, hfind]
        have hskip := leaderboardReviews_skip t
          (updateReviewer m v (leaderboardReviewApply r), v :: set) v (List.mem_cons_self _ _)
        rw [hskip.1]
        exact reviewerStatsFor_update_self m v _ (leaderboardReviewApply_username r)
      · have hp : ((fun x => x.author == some u) r) = false := by simp [hr, hvu]
        have hfind : (r :: t).find? (fun x => x.author == some u) =
            t.find? (fun x => x.author == some u) := List.find?_cons_of_neg _ (by simp [hp])
        rw [hfind]
        by_cases hv : v ∈ set
        · have hstep : leaderboardReviewStep (m, set) r = (m, set) := by
            simp [leaderboardReviewStep, hr, hv]
          rw [hstep]
          exact ih m set u hu
        · have hstep : leaderboardReviewStep (m, set) r =
              (updateReviewer m v (leaderboardReviewApply r), v :: set) := by
            simp [leaderboardReviewStep, hr, hv]
          have hu2 : u ∉ v :: set := by
            intro hmem
            rcases List.mem_cons.mp hmem with h1 | h1
            · exact hvu h1.symm
            · exact hu h1
          rw [hstep, ih (updateReviewer m v (leaderboardReviewApply r)) (v :: set) u hu2]
          have hother : reviewerStatsFor (updateReviewer m v (leaderboardReviewApply r)) u =
              reviewerStatsFor m u :=
            reviewerStatsFor_update_other m u v _ (fun h => hvu h.symm)
              (leaderboardReviewApply_username r)
          cases t.find? (fun x => x.author == some u) <;> simp [hother]

lemma plainCommentApply_comp (j k : Nat) (s : ReviewerStats) :
    plainCommentApply k (plainCommentApply j s) = plainCommentApply (j + k) s := by
  cases s
  simp only [plainCommentApply]
  simp
  omega

lemma leaderboardComments_char (cs : List CommentNode) :
    ∀ (m : List ReviewerStats) (u : String),
      reviewerStatsFor (cs.foldl leaderboardCommentStep m) u =
        plainCommentApply (cs.countP (fun c => c.author == some u))
          (reviewerStatsFor m u) := by
  induction cs with
  | nil =>
    intro m u
    simp [plainCommentApply]
  | cons c t ih =>
    intro m u
    rw [List.foldl_cons, List.countP_cons]
    cases hc : c.author with
    | none =>
      have hstep : leaderboardCommentStep m c = m := by
        simp [leaderboardCommentStep, hc]
      have hp : ((fun x => x.author == some u) c) = false := by simp [hc]
      rw [hstep, ih]
      simp [hp]
    | some v =>
      by_cases hvu : v = u
      · subst hvu
        have hstep : leaderboardCommentStep m c =
            updateReviewer m v (fun s =>
              { s with totalComments := s.totalComments + 1, points := s.points + 5 }) := by
          simp [leaderboardCommentStep, hc]
        have hp : ((fun x => x.author == some v) c) = true := by simp [hc]
        have hupd := reviewerStatsFor_update_self m v
          (fun s => { s with totalComments := s.totalComments + 1, points := s.points + 5 })
          (fun s => rfl)
        rw [hstep, ih, hupd]
        have hone : (fun s =>
            { s with totalComments := s.totalComments + 1, points := s.points + 5 })
            (reviewerStatsFor m v) = plainCommentApply 1 (reviewerStatsFor m v) := by
          simp [plainCommentApply]
        rw [hone, plainCommentApply_comp]
        simp [hp, Nat.add_comm]
      · have hstep : leaderboardCommentStep m c =
            updateReviewer m v (fun s =>
              { s with totalComments := s.totalComments + 1, points := s.points + 5 }) := by
          simp [leaderboardCommentStep, hc]
        have hp : ((fun x => x.author == some u) c) = false := by simp [hc, hvu]
        have hupd := reviewerStatsFor_update_other m u v
          (fun s => { s with totalComments := s.totalComments + 1, points := s.points + 5 })
          (fun h => hvu h.symm) (fun s => rfl)
        rw [hstep, ih, hupd]
        simp [hp, hvu]

/-! ### Per-PR characterization of the rescue fold -/

lemma rescueReviews_skip (minAge : ℚ) (timeUnit : TimeUnit) (created : Int)
    (rs : List ReviewNode) :
    ∀ (st : List RescuerStats × List String) (u : String), u ∈ st.2 →
      rescuerStatsFor (rs.foldl (rescueReviewStep minAge timeUnit created) st).1 u
          = rescuerStatsFor st.1 u
        ∧ u ∈ (rs.foldl (rescueReviewStep minAge timeUnit created) st).2 := by
  induction rs with
  | nil => exact fun st u hu => ⟨rfl, hu⟩
  | cons r t ih =>
    intro st u hu
    rw [List.foldl_cons]
    cases hr : r.author with
    | none =>
      have hstep : rescueReviewStep minAge timeUnit created st r = st := by
        simp [rescueReviewStep, hr]
      rw [hstep]
      exact ih st u hu
    | some v =>
      by_cases hv : v ∈ st.2
      · have hstep : rescueReviewStep minAge timeUnit created st r = st := by
          simp [rescueReviewStep, hr, hv]
        rw [hstep]
        exact ih st u hu
      · have huv : u ≠ v := fun h => hv (h ▸ hu)
        by_cases hage : ageInUnit timeUnit (r.submittedAt - created) < minAge
        · have hstep : rescueReviewStep minAge timeUnit created st r = (st.1, v :: st.2) := by
            simp [rescueReviewStep, hr, hv, hage]
          rw [hstep]
          exact ih (st.1, v :: st.2) u (List.mem_cons_of_mem _ hu)
        · have hstep : rescueReviewStep minAge timeUnit created st r =
              (updateRescuer st.1 v
                (rescueReviewApply timeUnit (ageInUnit timeUnit (r.submittedAt - created)) r),
                v :: st.2) := by
            simp [rescueReviewStep, hr, hv, hage]
          rw [hstep]
          have hrec := ih (updateRescuer st.1 v
              (rescueReviewApply timeUnit (ageInUnit timeUnit (r.submittedAt - created)) r),
              v :: st.2) u (List.mem_cons_of_mem _ hu)
          refine ⟨?_, hrec.2⟩
          rw [hrec.1]
          exact rescuerStatsFor_update_other st.1 u v _ huv
            (rescueReviewApply_username timeUnit _ r)

lemma rescueReviews_mem_set (minAge : ℚ) (timeUnit : TimeUnit) (created : Int)
    (rs : List ReviewNode) :
    ∀ (st : List RescuerStats × List String) (u : String),
      (u ∈ st.2 ∨ ∃ r ∈ rs, r.author = some u) →
      u ∈ (rs.foldl (rescueReviewStep minAge timeUnit created) st).2 := by
  induction rs with
  | nil =>
    intro st u hu
    rcases hu with h | ⟨r, hr, _⟩
    · exact h
    · simp at hr
  | cons r t ih =>
    intro st u hu
    rw [List.foldl_cons]
    have hsub : ∀ x ∈ st.2, x ∈ (rescueReviewStep minAge timeUnit created st r).2 := by
      intro x hx
      cases hr2 : r.author with
      | none =>
        have hstep : rescueReviewStep minAge timeUnit created st r = st := by
          simp [rescueReviewStep, hr2]
        rw [hstep]
        exact hx
      | some v =>
        by_cases hv : v ∈ st.2
        · have hstep : rescueReviewStep minAge timeUnit created st r = st := by
            simp [rescueReviewStep, hr2, hv]
          rw [hstep]
          exact hx
        · by_cases hage : ageInUnit timeUnit (r.submittedAt - created) < minAge
          · have hstep : rescueReviewStep minAge timeUnit created st r = (st.1, v :: st.2) := by
              simp [rescueReviewStep, hr2, hv, hage]
            rw [hstep]
            exact List.mem_cons_of_mem _ hx
          · have hstep : rescueReviewStep minAge timeUnit created st r =
                (updateRescuer st.1 v
                  (rescueReviewApply timeUnit (ageInUnit timeUnit (r.submittedAt - created)) r),
                  v :: st.2) := by
              simp [rescueReviewStep, hr2, hv, hage]
            rw [hstep]
            exact List.mem_cons_of_mem _ hx
    rcases hu with h | ⟨r2, hr2, ha⟩
    · exact ih _ u (Or.inl (hsub u h))
    · rcases List.mem_cons.mp hr2 with h1 | h1
      · subst h1
        by_cases hv : u ∈ st.2
        · exact ih _ u (Or.inl (hsub u hv))
        · have hmem : u ∈ (rescueReviewStep minAge timeUnit created st r2).2 := by
            by_cases hage : ageInUnit timeUnit (r2.submittedAt - created) < minAge
            · have hstep : rescueReviewStep minAge timeUnit created st r2 = (st.1, u :: st.2) := by
                simp [rescueReviewStep, ha, hv, hage]
              rw [hstep]
              exact List.mem_cons_self _ _
            · have hstep : rescueReviewStep minAge timeUnit created st r2 =
                  (updateRescuer st.1 u
                    (rescueReviewApply timeUnit (ageInUnit timeUnit (r2.submittedAt - created)) r2),
                    u :: st.2) := by
                simp [rescueReviewStep, ha, hv, hage]
              rw [hstep]
              exact List.mem_cons_self _ _
          exact ih _ u (Or.inl hmem)
      · exact ih _ u (Or.inr ⟨r2, h1, ha⟩)

lemma rescueReviews_char (minAge : ℚ) (timeUnit : TimeUnit) (created : Int)
    (rs : List ReviewNode) :
    ∀ (m : List RescuerStats) (set : List String) (u : String), u ∉ set →
      rescuerStatsFor (rs.foldl (rescueReviewStep minAge timeUnit created) (m, set)).1 u =
        (match rs.find? (fun r => r.author == some u) with
         | none => rescuerStatsFor m u
         | some r =>
           if ageInUnit timeUnit (r.submittedAt - created) < minAge then rescuerStatsFor m u
           else rescueReviewApply timeUnit (ageInUnit timeUnit (r.submittedAt - created)) r
             (rescuerStatsFor m u)) := by
  induction rs with
  | nil => intro m set u _; rfl
  | cons r t ih =>
    intro m set u hu
    rw [List.foldl_cons]
    cases hr : r.author with
    | none =>
      have hstep : rescueReviewStep minAge timeUnit created (m, set) r = (m, set) := by
        simp [rescueReviewStep, hr]
      have hp : ((fun x => x.author == some u) r) = false := by simp [hr]
      have hfind : (r :: t).find? (fun x => x.author == some u) =
          t.find? (fun x => x.author == some u) := List.find?_cons_of_neg _ (by simp [hp])
      rw [hstep, hfind]
      exact ih m set u hu
    | some v =>
      by_cases hvu : v = u
      · subst hvu
        have hp : ((fun x => x.author == some v) r) = true := by simp [hr]
        have hfind : (r :: t).find? (fun x => x.author == some v) = some r :=
          List.find?_cons_of_pos _ hp
        rw [hfind]
        by_cases hage : ageInUnit timeUnit (r.submittedAt - created) < minAge
        · have hstep : rescueReviewStep minAge timeUnit created (m, set) r = (m, v :: set) := by
            simp [rescueReviewStep, hr, hu, hage]
          rw [hstep]
          have hskip := rescueReviews_skip minAge timeUnit created t (m, v :: set) v
            (List.mem_cons_self _ _)
          rw [hskip.1]
          exact (if_pos hage).symm
        · have hstep : rescueReviewStep minAge timeUnit created (m, set) r =
              (updateRescuer m v
                (rescueReviewApply timeUnit (ageInUnit timeUnit (r.submittedAt - created)) r),
                v :: set) := by
            simp [rescueReviewStep, hr, hu, hage]
          rw [hstep]
          have hskip := rescueReviews_skip minAge timeUnit created t
            (updateRescuer m v
              (rescueReviewApply timeUnit (ageInUnit timeUnit (r.submittedAt - created)) r),
              v :: set) v (List.mem_cons_self _ _)
          rw [hskip.1]
          show rescuerStatsFor (updateRescuer m v
              (rescueReviewApply timeUnit (ageInUnit timeUnit (r.submittedAt - created)) r)) v =
            if ageInUnit timeUnit (r.submittedAt - created) < minAge then rescuerStatsFor m v
            else rescueReviewApply timeUnit (ageInUnit timeUnit (r.submittedAt - created)) r
              (rescuerStatsFor m v)
          rw [if_neg hage]
          exact rescuerStatsFor_update_self m v _ (rescueReviewApply_username timeUnit _ r)
      · have hp : ((fun x => x.author == some u) r) = false := by simp [hr, hvu]
        have hfind : (r :: t).find? (fun x => x.author == some u) =
            t.find? (fun x => x.author == some u) := List.find?_cons_of_neg _ (by simp [hp])
        rw [hfind]
        have hu2 : u ∉ v :: set := by
          intro hmem
          rcases List.mem_cons.mp hmem with h1 | h1
          · exact hvu h1.symm
          · exact hu h1
        by_cases hv : v ∈ set
        · have hstep : rescueReviewStep minAge timeUnit created (m, set) r = (m, set) := by
            simp [rescueReviewStep, hr, hv]
          rw [hstep]
          exact ih m set u hu
        · by_cases hage : ageInUnit timeUnit (r.submittedAt - created) < minAge
          · have hstep : rescueReviewStep minAge timeUnit created (m, set) r = (m, v :: set) := by
              simp [rescueReviewStep, hr, hv, hage]
            rw [hstep]
            exact ih m (v :: set) u hu2
          · have hstep : rescueReviewStep minAge timeUnit created (m, set) r =
                (updateRescuer m v
                  (rescueReviewApply timeUnit (ageInUnit timeUnit (r.submittedAt - created)) r),
                  v :: set) := by
              simp [rescueReviewStep, hr, hv, hage]
            rw [hstep, ih _ (v :: set) u hu2]
            have hother : rescuerStatsFor (updateRescuer m v
                (rescueReviewApply timeUnit (ageInUnit timeUnit (r.submittedAt - created)) r)) u =
                rescuerStatsFor m u :=
              rescuerStatsFor_update_other m u v _ (fun h => hvu h.symm)
                (rescueReviewApply_username timeUnit _ r)
            cases t.find? (fun x => x.author == some u) <;> simp [hother]

lemma rescueComments_rset_skip (minAge : ℚ) (timeUnit : TimeUnit) (created : Int)
    (rset : List String) (cs : List CommentNode) :
    ∀ (st : List RescuerStats × List String) (u : String), u ∈ rset →
      rescuerStatsFor (cs.foldl (rescueCommentStep minAge timeUnit created rset) st).1 u
        = rescuerStatsFor st.1 u := by
  induction cs with
  | nil => exact fun st u _ => rfl
  | cons c t ih =>
    intro st u hu
    rw [List.foldl_cons]
    cases hc : c.author with
    | none =>
      have hstep : rescueCommentStep minAge timeUnit created rset st c = st := by
        simp [rescueCommentStep, hc]
      rw [hstep]
      exact ih st u hu
    | some v =>
      by_cases hvu : v = u
      · subst hvu
        have hstep : rescueCommentStep minAge timeUnit created rset st c = st := by
          simp [rescueCommentStep, hc, hu]
        rw [hstep]
        exact ih st v hu
      · by_cases hg : v ∈ st.2 ∨ v ∈ rset
        · have hstep : rescueCommentStep minAge timeUnit created rset st c = st := by
            rcases hg with h | h
            · simp [rescueCommentStep, hc, h]
            · simp [rescueCommentStep, hc, h]
          rw [hstep]
          exact ih st u hu
        · push_neg at hg
          by_cases hage : ageInUnit timeUnit (c.createdAt - created) < minAge
          · have hstep : rescueCommentStep minAge timeUnit created rset st c =
                (st.1, v :: st.2) := by
              simp [rescueCommentStep, hc, hg.1, hg.2, hage]
            rw [hstep]
            exact ih (st.1, v :: st.2) u hu
          · have hstep : rescueCommentStep minAge timeUnit created rset st c =
                (updateRescuer st.1 v
                  (rescueCommentApply timeUnit (ageInUnit timeUnit (c.createdAt - created))),
                  v :: st.2) := by
              simp [rescueCommentStep, hc, hg.1, hg.2, hage]
            rw [hstep]
            rw [ih _ u hu]
            exact rescuerStatsFor_update_other st.1 u v _ (fun h => hvu h.symm)
              (rescueCommentApply_username timeUnit _)

lemma rescueComments_cset_skip (minAge : ℚ) (timeUnit : TimeUnit) (created : Int)
    (rset : List String) (cs : List CommentNode) :
    ∀ (st : List RescuerStats × List String) (u : String), u ∈ st.2 →
      rescuerStatsFor (cs.foldl (rescueCommentStep minAge timeUnit created rset) st).1 u
        = rescuerStatsFor st.1 u := by
  induction cs with
  | nil => exact fun st u _ => rfl
  | cons c t ih =>
    intro st u hu
    rw [List.foldl_cons]
    cases hc : c.author with
    | none =>
      have hstep : rescueCommentStep minAge timeUnit created rset st c = st := by
        simp [rescueCommentStep, hc]
      rw [hstep]
      exact ih st u hu
    | some v =>
      by_cases hg : v ∈ st.2 ∨ v ∈ rset
      · have hstep : rescueCommentStep minAge timeUnit created rset st c = st := by
          rcases hg with h | h
          · simp [rescueCommentStep, hc, h]
          · simp [rescueCommentStep, hc, h]
        rw [hstep]
        exact ih st u hu
      · push_neg at hg
        have hvu : u ≠ v := fun h => hg.1 (h ▸ hu)
        by_cases hage : ageInUnit timeUnit (c.createdAt - created) < minAge
        · have hstep : rescueCommentStep minAge timeUnit created rset st c =
              (st.1, v :: st.2) := by
            simp [rescueCommentStep, hc, hg.1, hg.2, hage]
          rw [hstep]
          exact ih (st.1, v :: st.2) u (List.mem_cons_of_mem _ hu)
        · have hstep : rescueCommentStep minAge timeUnit created rset st c =
              (updateRescuer st.1 v
                (rescueCommentApply timeUnit (ageInUnit timeUnit (c.createdAt - created))),
                v :: st.2) := by
            simp [rescueCommentStep, hc, hg.1, hg.2, hage]
          rw [hstep]
          rw [ih _ u (List.mem_cons_of_mem _ hu)]
          exact rescuerStatsFor_update_other st.1 u v _ hvu
            (rescueCommentApply_username timeUnit _)

lemma rescueComments_char (minAge : ℚ) (timeUnit : TimeUnit) (created : Int)
    (rset : List String) (cs : List CommentNode) :
    ∀ (m : List RescuerStats) (cset : List String) (u : String),
      u ∉ cset → u ∉ rset →
      rescuerStatsFor (cs.foldl (rescueCommentStep minAge timeUnit created rset) (m, cset)).1 u =
        (match cs.find? (fun c => c.author == some u) with
         | none => rescuerStatsFor m u
         | some c =>
           if ageInUnit timeUnit (c.createdAt - created) < minAge then rescuerStatsFor m u
           else rescueCommentApply timeUnit (ageInUnit timeUnit (c.createdAt - created))
             (rescuerStatsFor m u)) := by
  induction cs with
  | nil => intro m cset u _ _; rfl
  | cons c t ih =>
    intro m cset u hu hur
    rw [List.foldl_cons]
    cases hc : c.author with
    | none =>
      have hstep : rescueCommentStep minAge timeUnit created rset (m, cset) c = (m, cset) := by
        simp [rescueCommentStep, hc]
      have hp : ((fun x => x.author == some u) c) = false := by simp [hc]
      have hfind : (c :: t).find? (fun x => x.author == some u) =
          t.find? (fun x => x.author == some u) := List.find?_cons_of_neg _ (by simp [hp])
      rw [hstep, hfind]
      exact ih m cset u hu hur
    | some v =>
      by_cases hvu : v = u
      · subst hvu
        have hp : ((fun x => x.author == some v) c) = true := by simp [hc]
        have hfind : (c :: t).find? (fun x => x.author == some v) = some c :=
          List.find?_cons_of_pos _ hp
        rw [hfind]
        by_cases hage : ageInUnit timeUnit (c.createdAt - created) < minAge
        · have hstep : rescueCommentStep minAge timeUnit created rset (m, cset) c =
              (m, v :: cset) := by
            simp [rescueCommentStep, hc, hu, hur, hage]
          rw [hstep]
          rw [rescueComments_cset_skip minAge timeUnit created rset t (m, v :: cset) v
            (List.mem_cons_self _ _)]
          exact (if_pos hage).symm
        · have hstep : rescueCommentStep minAge timeUnit created rset (m, cset) c =
              (updateRescuer m v
                (rescueCommentApply timeUnit (ageInUnit timeUnit (c.createdAt - created))),
                v :: cset) := by
            simp [rescueCommentStep, hc, hu, hur, hage]
          rw [hstep]
          rw [rescueComments_cset_skip minAge timeUnit created rset t _ v
            (List.mem_cons_self _ _)]
          show rescuerStatsFor (updateRescuer m v
              (rescueCommentApply timeUnit (ageInUnit timeUnit (c.createdAt - created)))) v =
            if ageInUnit timeUnit (c.createdAt - created) < minAge then rescuerStatsFor m v
            else rescueCommentApply timeUnit (ageInUnit timeUnit (c.createdAt - created))
              (rescuerStatsFor m v)
          rw [if_neg hage]
          exact rescuerStatsFor_update_self m v _ (rescueCommentApply_username timeUnit _)
      · have hp : ((fun x => x.author == some u) c) = false := by simp [hc, hvu]
        have hfind : (c :: t).find? (fun x => x.author == some u) =
            t.find? (fun x => x.author == some u) := List.find?_cons_of_neg _ (by simp [hp])
        rw [hfind]
        have hu2 : u ∉ v :: cset := by
          intro hmem
          rcases List.mem_cons.mp hmem with h1 | h1
          · exact hvu h1.symm
          · exact hu h1
        by_cases hg : v ∈ cset ∨ v ∈ rset
        · have hstep : rescueCommentStep minAge timeUnit created rset (m, cset) c = (m, cset) := by
            rcases hg with h | h
            · simp [rescueCommentStep, hc, h]
            · simp [rescueCommentStep, hc, h]
          rw [hstep]
          exact ih m cset u hu hur
        · push_neg at hg
          by_cases hage : ageInUnit timeUnit (c.createdAt - created) < minAge
          · have hstep : rescueCommentStep minAge timeUnit created rset (m, cset) c =
                (m, v :: cset) := by
              simp [rescueCommentStep, hc, hg.1, hg.2, hage]
            rw [hstep]
            exact ih m (v :: cset) u hu2 hur
          · have hstep : rescueCommentStep minAge timeUnit created rset (m, cset) c =
                (updateRescuer m v
                  (rescueCommentApply timeUnit (ageInUnit timeUnit (c.createdAt - created))),
                  v :: cset) := by
              simp [rescueCommentStep, hc, hg.1, hg.2, hage]
            rw [hstep, ih _ (v :: cset) u hu2 hur]
            have hother : rescuerStatsFor (updateRescuer m v
                (rescueCommentApply timeUnit (ageInUnit timeUnit (c.createdAt - created)))) u =
                rescuerStatsFor m u :=
              rescuerStatsFor_update_other m u v _ (fun h => hvu h.symm)
                (rescueCommentApply_username timeUnit _)
            cases t.find? (fun x => x.author == some u) <;> simp [hother]

/-! ### Pagination loop lemmas -/

lemma fetchLoop_len {σ : Type} (src : Option String → Except String Page)
    (process : σ → Page → σ) :
    ∀ (fuel : Nat) (s : σ) (cursor : Option String),
      (fetchLoop src process s cursor fuel).2.length ≤ fuel := by
  intro fuel
  induction fuel with
  | zero =>
    intro s cursor
    simp [fetchLoop]
  | succ n ih =>
    intro s cursor
    cases hsrc : src cursor with
    | error e => simp [fetchLoop, hsrc]
    | ok page =>
      by_cases hn : page.pageInfo.hasNextPage = true
      · simp only [fetchLoop, hsrc, hn, if_true, List.length_cons]
        have := ih (process s page) page.pageInfo.endCursor
        omega
      · simp [fetchLoop, hsrc, hn]

lemma fetchLoop_len_all {σ : Type} (src : Option String → Except String Page)
    (process : σ → Page → σ)
    (h : ∀ c, ∃ p, src c = .ok p ∧ p.pageInfo.hasNextPage = true) :
    ∀ (fuel : Nat) (s : σ) (cursor : Option String),
      (fetchLoop src process s cursor fuel).2.length = fuel := by
  intro fuel
  induction fuel with
  | zero =>
    intro s cursor
    simp [fetchLoop]
  | succ n ih =>
    intro s cursor
    obtain ⟨p, hp, hn⟩ := h cursor
    simp only [fetchLoop, hp, hn, if_true, List.length_cons]
    rw [ih (process s p) p.pageInfo.endCursor]

lemma fetchLoop_head {σ : Type} (src : Option String → Except String Page)
    (process : σ → Page → σ) (n : Nat) (s : σ) (cursor : Option String) :
    (fetchLoop src process s cursor (n + 1)).2.head? = some cursor := by
  cases hsrc : src cursor with
  | error e => simp [fetchLoop, hsrc]
  | ok page =>
    by_cases hn : page.pageInfo.hasNextPage = true
    · simp [fetchLoop, hsrc, hn]
    · simp [fetchLoop, hsrc, hn]

lemma fetchLoop_chain {σ : Type} (src : Option String → Except String Page)
    (process : σ → Page → σ) :
    ∀ (fuel : Nat) (s : σ) (cursor : Option String),
      (fetchLoop src process s cursor fuel).2.Chain'
        (fun a b => ∃ p, src a = .ok p ∧ p.pageInfo.hasNextPage = true ∧
          p.pageInfo.endCursor = b) := by
  intro fuel
  induction fuel with
  | zero =>
    intro s cursor
    simp [fetchLoop]
  | succ n ih =>
    intro s cursor
    cases hsrc : src cursor with
    | error e => simp [fetchLoop, hsrc]
    | ok page =>
      by_cases hn : page.pageInfo.hasNextPage = true
      · simp only [fetchLoop, hsrc, hn, if_true]
        rw [List.chain'_cons']
        refine ⟨?_, ih (process s page) page.pageInfo.endCursor⟩
        intro b hb
        cases n with
        | zero =>
          simp [fetchLoop] at hb
        | succ k =>
          rw [fetchLoop_head src process k (process s page) page.pageInfo.endCursor] at hb
          simp at hb
          exact ⟨page, hsrc, hn, hb⟩
      · simp [fetchLoop, hsrc, hn]

lemma fetchLoop_ok_requests {σ : Type} (src : Option String → Except String Page)
    (process : σ → Page → σ) :
    ∀ (fuel : Nat) (s : σ) (cursor : Option String) (out : σ),
      (fetchLoop src process s cursor fuel).1 = .ok out →
      ∀ c ∈ (fetchLoop src process s cursor fuel).2, (src c).isOk = true := by
  intro fuel
  induction fuel with
  | zero =>
    intro s cursor out _ c hc
    simp [fetchLoop] at hc
  | succ n ih =>
    intro s cursor out hout c hc
    cases hsrc : src cursor with
    | error e =>
      rw [fetchLoop] at hout hc
      simp [hsrc] at hout
    | ok page =>
      by_cases hn : page.pageInfo.hasNextPage = true
      · rw [fetchLoop] at hout hc
        simp only [hsrc, hn, if_true] at hout hc
        rcases List.mem_cons.mp hc with h1 | h1
        · subst h1
          simp [hsrc, Except.isOk, Except.toBool]
        · exact ih (process s page) page.pageInfo.endCursor out hout c h1
      · rw [fetchLoop] at hc
        simp [hsrc, hn] at hc
        subst hc
        simp [hsrc, Except.isOk, Except.toBool]

lemma fetchLoop_ok_preserve {σ : Type} (src : Option String → Except String Page)
    (process : σ → Page → σ) (P : σ → Prop)
    (hstep : ∀ s p, P s → P (process s p)) :
    ∀ (fuel : Nat) (s : σ) (cursor : Option String) (out : σ),
      P s → (fetchLoop src process s cursor fuel).1 = .ok out → P out := by
  intro fuel
  induction fuel with
  | zero =>
    intro s cursor out hs hout
    simp [fetchLoop] at hout
    exact hout ▸ hs
  | succ n ih =>
    intro s cursor out hs hout
    cases hsrc : src cursor with
    | error e =>
      rw [fetchLoop] at hout
      simp [hsrc] at hout
    | ok page =>
      by_cases hn : page.pageInfo.hasNextPage = true
      · rw [fetchLoop] at hout
        simp only [hsrc, hn, if_true] at hout
        exact ih (process s page) page.pageInfo.endCursor out (hstep s page hs) hout
      · rw [fetchLoop] at hout
        simp only [hsrc, hn, if_false, Bool.false_eq_true] at hout
        simp at hout
        exact hout ▸ hstep s page hs

lemma foldl_preserve {σ β : Type} (P : σ → Prop) (f : σ → β → σ)
    (h : ∀ s b, P s → P (f s b)) :
    ∀ (l : List β) (s : σ), P s → P (l.foldl f s) := by
  intro l
  induction l with
  | nil => exact fun s hs => hs
  | cons b t ih =>
    intro s hs
    rw [List.foldl_cons]
    exact ih (f s b) (h s b hs)

/-! ### Point-decomposition invariant -/

lemma pointsInvariant_new (u : String) : pointsInvariant (newReviewer u) := by
  simp [pointsInvariant, newReviewer]

lemma pointsInvariant_reviewApply (r : ReviewNode) (s : ReviewerStats)
    (h : pointsInvariant s) : pointsInvariant (leaderboardReviewApply r s) := by
  unfold pointsInvariant at *
  unfold leaderboardReviewApply
  split_ifs <;> simp <;> omega

lemma leaderboardReviewStep_inv (st : List ReviewerStats × List String)
    (r : ReviewNode) (h : ∀ s ∈ st.1, pointsInvariant s) :
    ∀ s ∈ (leaderboardReviewStep st r).1, pointsInvariant s := by
  unfold leaderboardReviewStep
  cases hr : r.author with
  | none => exact h
  | some v =>
    dsimp only
    split
    · exact h
    · exact keyedUpdate_forall _ _ pointsInvariant st.1 v _ h (pointsInvariant_new v)
        (pointsInvariant_reviewApply r)

lemma pointsInvariant_commentBump (s : ReviewerStats) (h : pointsInvariant s) :
    pointsInvariant { s with totalComments := s.totalComments + 1, points := s.points + 5 } := by
  unfold pointsInvariant at *
  simp
  omega

lemma leaderboardCommentStep_inv (m : List ReviewerStats) (c : CommentNode)
    (h : ∀ s ∈ m, pointsInvariant s) :
    ∀ s ∈ leaderboardCommentStep m c, pointsInvariant s := by
  unfold leaderboardCommentStep
  cases hc : c.author with
  | none => exact h
  | some v =>
    exact keyedUpdate_forall _ _ pointsInvariant m v _ h (pointsInvariant_new v)
      pointsInvariant_commentBump

lemma leaderboardProcessPR_inv (m : List ReviewerStats) (pr : PRNode)
    (h : ∀ s ∈ m, pointsInvariant s) :
    ∀ s ∈ leaderboardProcessPR m pr, pointsInvariant s := by
  unfold leaderboardProcessPR
  apply foldl_preserve (fun m => ∀ s ∈ m, pointsInvariant s) leaderboardCommentStep
    (fun m c hm => leaderboardCommentStep_inv m c hm)
  exact foldl_preserve (fun st => ∀ s ∈ st.1, pointsInvariant s) leaderboardReviewStep
    (fun st r hst => leaderboardReviewStep_inv st r hst) pr.reviews (m, []) h

lemma leaderboardProcessPage_inv (m : List ReviewerStats) (page : Page)
    (h : ∀ s ∈ m, pointsInvariant s) :
    ∀ s ∈ leaderboardProcessPage m page, pointsInvariant s :=
  foldl_preserve (fun m => ∀ s ∈ m, pointsInvariant s) leaderboardProcessPR
    (fun m pr hm => leaderboardProcessPR_inv m pr hm) page.nodes m h

lemma getLeaderboard_pointsInvariant (src : Option String → Except String Page)
    (l : List ReviewerStats) (h : getLeaderboard src = .ok l) :
    ∀ s ∈ l, pointsInvariant s := by
  intro s hs
  unfold getLeaderboard at h
  cases hrun : (fetchLoop src leaderboardProcessPage [] none 6).1 with
  | error e =>
    rw [hrun] at h
    simp [Except.map] at h
  | ok m =>
    rw [hrun] at h
    simp only [Except.map, Except.ok.injEq] at h
    have hm : ∀ x ∈ m, pointsInvariant x :=
      fetchLoop_ok_preserve src leaderboardProcessPage
        (fun m => ∀ x ∈ m, pointsInvariant x)
        (fun m p hm => leaderboardProcessPage_inv m p hm) 6 [] none m
        (by intro x hx; cases hx) hrun
    have hs2 : s ∈ m := by
      rw [← h] at hs
      exact (List.perm_insertionSort byPointsDesc m).mem_iff.mp hs
    exact hm s hs2

lemma pointsInvariant_restReviewApply (r : RestReview) (s : ReviewerStats)
    (h : pointsInvariant s) :
    pointsInvariant ((fun s =>
      let s1 := { s with reviewCount := s.reviewCount + 1 }
      if r.state == "APPROVED" then
        { s1 with approvals := s1.approvals + 1, points := s1.points + 50 }
      else if r.state == "CHANGES_REQUESTED" then
        { s1 with changesRequested := s1.changesRequested + 1, points := s1.points + 30 }
      else if r.state == "COMMENTED" then
        { s1 with comments := s1.comments + 1, points := s1.points + 10 }
      else s1) s) := by
  unfold pointsInvariant at *
  dsimp only
  split_ifs <;> simp <;> omega

lemma restReviewStep_inv (m : List ReviewerStats) (r : RestReview)
    (h : ∀ s ∈ m, pointsInvariant s) :
    ∀ s ∈ restReviewStep m r, pointsInvariant s := by
  unfold restReviewStep
  cases hr : r.user with
  | none => exact h
  | some v =>
    exact keyedUpdate_forall _ _ pointsInvariant m v _ h (pointsInvariant_new v)
      (pointsInvariant_restReviewApply r)

lemma restCommentStep_inv (m : List ReviewerStats) (c : RestComment)
    (h : ∀ s ∈ m, pointsInvariant s) :
    ∀ s ∈ restCommentStep m c, pointsInvariant s := by
  unfold restCommentStep
  cases hc : c.user with
  | none => exact h
  | some v =>
    exact keyedUpdate_forall _ _ pointsInvariant m v _ h (pointsInvariant_new v)
      pointsInvariant_commentBump

lemma pointsInvariant_reactionBump (s : ReviewerStats) (h : pointsInvariant s) :
    pointsInvariant { s with reactions := s.reactions + 1, points := s.points + 2 } := by
  unfold pointsInvariant at *
  simp
  omega

lemma restReactionStep_inv (m : List ReviewerStats) (r : RestReaction)
    (h : ∀ s ∈ m, pointsInvariant s) :
    ∀ s ∈ restReactionStep m r, pointsInvariant s := by
  unfold restReactionStep
  cases hr : r.user with
  | none => exact h
  | some v =>
    exact keyedUpdate_forall _ _ pointsInvariant m v _ h (pointsInvariant_new v)
      pointsInvariant_reactionBump

lemma restProcessPR_inv (m : List ReviewerStats) (pr : RestPR)
    (h : ∀ s ∈ m, pointsInvariant s) :
    ∀ s ∈ restProcessPR m pr, pointsInvariant s := by
  unfold restProcessPR
  apply foldl_preserve (fun m => ∀ s ∈ m, pointsInvariant s) restReactionStep
    (fun m r hm => restReactionStep_inv m r hm)
  apply foldl_preserve (fun m => ∀ s ∈ m, pointsInvariant s) restCommentStep
    (fun m c hm => restCommentStep_inv m c hm)
  exact foldl_preserve (fun m => ∀ s ∈ m, pointsInvariant s) restReviewStep
    (fun m r hm => restReviewStep_inv m r hm) (fetchPRReviews pr) m h

lemma getReviewerStats_pointsInvariant (prsResult : Except String (List RestPR))
    (l : List ReviewerStats) (h : getReviewerStats prsResult = .ok l) :
    ∀ s ∈ l, pointsInvariant s := by
  intro s hs
  unfold getReviewerStats at h
  cases prsResult with
  | error e => simp at h
  | ok prs =>
    simp only [Except.ok.injEq] at h
    have hm : ∀ x ∈ prs.foldl restProcessPR [], pointsInvariant x :=
      foldl_preserve (fun m => ∀ x ∈ m, pointsInvariant x) restProcessPR
        (fun m pr hm => restProcessPR_inv m pr hm) prs []
        (by intro x hx; cases hx)
    have hs2 : s ∈ prs.foldl restProcessPR [] := by
      rw [← h] at hs
      exact (List.perm_insertionSort byPointsDesc _).mem_iff.mp hs
    exact hm s hs2

/-! ### Claims -/

/-- C3: for every input to the staleness classifier `calculatePRStatus`, a
positive `reviewCount` forces urgency normal ("Reviewed") regardless of
age; otherwise the first matching threshold rule in the order critical,
urgent, warning (inclusive comparisons against the unit-scaled thresholds)
decides the urgency, with the message variant chosen by whether
`commentCount > 0`; an age below the warning threshold yields urgency
normal ("new PR"). -/
theorem C3_staleness_classifier :
    ∀ (age : ℚ) (reviewCount commentCount : Nat) (timeUnit : TimeUnit),
      (0 < reviewCount →
        calculatePRStatus age reviewCount commentCount timeUnit =
          { urgency := .normal, message := "✅ Reviewed", color := 0x00ff00, emoji := "✅" })
      ∧ (reviewCount = 0 → (criticalThreshold timeUnit : ℚ) ≤ age →
        calculatePRStatus age reviewCount commentCount timeUnit =
          { urgency := .critical
            message :=
              if 0 < commentCount then
                "🔴 CRITICAL: Discussed but not reviewed for " ++
                  toString (criticalThreshold timeUnit) ++ "+ " ++ unitsWord timeUnit
              else
                "🔥 CRITICAL: No activity for " ++
                  toString (criticalThreshold timeUnit) ++ "+ " ++ unitsWord timeUnit
            color := 0xff0000
            emoji := "🔥" })
      ∧ (reviewCount = 0 → age < (criticalThreshold timeUnit : ℚ) →
          (urgentThreshold timeUnit : ℚ) ≤ age →
        calculatePRStatus age reviewCount commentCount timeUnit =
          { urgency := .urgent
            message :=
              if 0 < commentCount then "⚠️ URGENT: Comments but no review"
              else "🟠 URGENT: No activity for " ++
                toString (urgentThreshold timeUnit) ++ "+ " ++ unitsWord timeUnit
            color := 0xff8800
            emoji := "🟠" })
      ∧ (reviewCount = 0 → age < (urgentThreshold timeUnit : ℚ) →
          (warningThreshold timeUnit : ℚ) ≤ age →
        calculatePRStatus age reviewCount commentCount timeUnit =
          { urgency := .warning
            message :=
              if 0 < commentCount then "🟡 WARNING: Discussed, no review"
              else "💭 Needs attention"
            color := 0xffff00
            emoji := "🟡" })
      ∧ (reviewCount = 0 → age < (warningThreshold timeUnit : ℚ) →
        calculatePRStatus age reviewCount commentCount timeUnit =
          { urgency := .normal, message := "🆕 New PR", color := 0x66ff66, emoji := "🆕" }) := by
  intro age rc cc timeUnit
  unfold calculatePRStatus
  refine ⟨?_, ?_, ?_, ?_, ?_⟩
  · intro h
    rw [if_pos h]
  · intro h0 hc
    rw [if_neg (by omega), if_pos hc]
  · intro h0 hcn hu
    rw [if_neg (by omega), if_neg (not_le.mpr hcn), if_pos hu]
  · intro h0 hun hw
    have hcn : age < (criticalThreshold timeUnit : ℚ) := by
      have : (urgentThreshold timeUnit : ℚ) ≤ (criticalThreshold timeUnit : ℚ) := by
        cases timeUnit <;> norm_num [urgentThreshold, criticalThreshold]
      linarith
    rw [if_neg (by omega), if_neg (not_le.mpr hcn), if_neg (not_le.mpr hun), if_pos hw]
  · intro h0 hwn
    have hun : age < (urgentThreshold timeUnit : ℚ) := by
      have : (warningThreshold timeUnit : ℚ) ≤ (urgentThreshold timeUnit : ℚ) := by
        cases timeUnit <;> norm_num [warningThreshold, urgentThreshold]
      linarith
    have hcn : age < (criticalThreshold timeUnit : ℚ) := by
      have : (urgentThreshold timeUnit : ℚ) ≤ (criticalThreshold timeUnit : ℚ) := by
        cases timeUnit <;> norm_num [urgentThreshold, criticalThreshold]
      linarith
    rw [if_neg (by omega), if_neg (not_le.mpr hcn), if_neg (not_le.mpr hun),
      if_neg (not_le.mpr hwn)]

/-- Witness for C3: a PR with one review is classified "Reviewed" even at
age 20 days. -/
theorem C3_witness :
    calculatePRStatus 20 1 0 .days =
      { urgency := .normal, message := "✅ Reviewed", color := 0x00ff00, emoji := "✅" } :=
  (C3_staleness_classifier 20 1 0 .days).1 (by norm_num)

/-- C4: every aggregation run's pagination loop issues at most 6 requests,
the first with a null cursor; adjacent requests are chained through the
previous response's `endCursor` and only issued when that response reported
`hasNextPage`; a source that always has a further page receives exactly 6
requests. -/
theorem C4_page_budget :
    ∀ (σ : Type) (process : σ → Page → σ) (s : σ)
      (src : Option String → Except String Page),
      (fetchLoop src process s none 6).2.length ≤ 6
      ∧ ((∀ c, ∃ p, src c = .ok p ∧ p.pageInfo.hasNextPage = true) →
          (fetchLoop src process s none 6).2.length = 6)
      ∧ (fetchLoop src process s none 6).2.head? = some none
      ∧ (fetchLoop src process s none 6).2.Chain'
          (fun a b => ∃ p, src a = .ok p ∧ p.pageInfo.hasNextPage = true ∧
            p.pageInfo.endCursor = b) := by
  intro σ process s src
  exact ⟨fetchLoop_len src process 6 s none,
    fun h => fetchLoop_len_all src process h 6 s none,
    fetchLoop_head src process 5 s none,
    fetchLoop_chain src process 6 s none⟩

/-- Witness for C4: an endless source receives exactly 6 requests. -/
theorem C4_witness :
    (fetchLoop endlessSrc leaderboardProcessPage ([] : List ReviewerStats) none 6).2.length
      = 6 :=
  (C4_page_budget (List ReviewerStats) leaderboardProcessPage [] endlessSrc).2.1
    (fun _ => ⟨_, rfl, rfl⟩)

/-- C9: the leaderboard is sorted descending by points, and the
neglected-PR list is sorted by urgency rank descending with ties broken by
age descending and is truncated to at most 10 entries. -/
theorem C9_sorted_output :
    (∀ (src : Option String → Except String Page) (l : List ReviewerStats),
        getLeaderboard src = .ok l → l.Sorted byPointsDesc)
    ∧ (∀ (src : Option String → Except String Page) (minTime : ℚ)
        (timeUnit : TimeUnit) (now : Int) (l : List PRWithStatus),
        getTop10MostNeglectedPRs src minTime timeUnit now = .ok l →
          l.Sorted byNeglect ∧ l.length ≤ 10) := by
  constructor
  · intro src l h
    unfold getLeaderboard at h
    cases hrun : (fetchLoop src leaderboardProcessPage [] none 6).1 with
    | error e =>
      rw [hrun] at h
      simp [Except.map] at h
    | ok m =>
      rw [hrun] at h
      simp only [Except.map, Except.ok.injEq] at h
      rw [← h]
      exact List.sorted_insertionSort byPointsDesc m
  · intro src minTime timeUnit now l h
    unfold getTop10MostNeglectedPRs at h
    cases hrun : fetchStalePRs src minTime false timeUnit now with
    | error e =>
      rw [hrun] at h
      simp [Except.map] at h
    | ok stalePRs =>
      rw [hrun] at h
      simp only [Except.map, Except.ok.injEq] at h
      rw [← h]
      constructor
      · exact List.Pairwise.sublist (List.take_sublist _ _)
          (List.sorted_insertionSort byNeglect _)
      · rw [List.length_take]
        exact min_le_left _ _

/-- Witness for C9: a two-entry leaderboard comes out sorted. -/
theorem C9_witness :
    ([{ username := "alice", reviewCount := 1, approvals := 1, changesRequested := 0,
        comments := 0, totalComments := 0, reactions := 0, points := 50 },
      { username := "bob", reviewCount := 0, approvals := 0, changesRequested := 0,
        comments := 0, totalComments := 1, reactions := 0, points := 5 }] :
      List ReviewerStats).Sorted byPointsDesc :=
  C9_sorted_output.1 (onePageSrc [prApprovalAndComment]) _ rfl

/-- C7: total points decompose additively per the flat table — 50 per
approval, 30 per change request, 10 per counted commented review, 5 per
plain comment, 2 per reaction — for every entry produced by the GraphQL
`getLeaderboard` and by the REST `getReviewerStats`. -/
theorem C7_point_table :
    (∀ (src : Option String → Except String Page) (l : List ReviewerStats),
        getLeaderboard src = .ok l → ∀ s ∈ l, pointsInvariant s)
    ∧ (∀ (prsResult : Except String (List RestPR)) (l : List ReviewerStats),
        getReviewerStats prsResult = .ok l → ∀ s ∈ l, pointsInvariant s) :=
  ⟨getLeaderboard_pointsInvariant, getReviewerStats_pointsInvariant⟩

/-- Witness for C7: one approval yields exactly 50 points. -/
theorem C7_witness :
    pointsInvariant (⟨"alice", 1, 1, 0, 0, 0, 0, 50⟩ : ReviewerStats) :=
  C7_point_table.2 (.ok [prRestApproval])
    [{ username := "alice", reviewCount := 1, approvals := 1, changesRequested := 0,
       comments := 0, totalComments := 0, reactions := 0, points := 50 }] rfl _
    (by simp)

/-- C2 (amended): in the GraphQL `getLeaderboard`, per PR and actor only
the first review event in source order is counted — later reviews by the
same actor change no counter and add no points — while plain comments are
counted (5 points each) for every occurrence with no per-actor
deduplication.  (The REST `getReviewerStats` applies no review
deduplication at all; see the counterexample.) -/
theorem C2_leaderboard_dedup :
    ∀ (m : List ReviewerStats) (pr : PRNode) (u : String),
      reviewerStatsFor (leaderboardProcessPR m pr) u =
        plainCommentApply (pr.comments.countP (fun c => c.author == some u))
          (match pr.reviews.find? (fun r => r.author == some u) with
           | none => reviewerStatsFor m u
           | some r => leaderboardReviewApply r (reviewerStatsFor m u)) := by
  intro m pr u
  unfold leaderboardProcessPR
  rw [leaderboardComments_char]
  rw [leaderboardReviews_char pr.reviews m [] u (by simp)]

/-- Counterexample for C2 as stated: the REST `getReviewerStats` counts
both approvals the same actor submitted on one PR (reviewCount 2,
100 points), exceeding the claimed per-actor-per-PR cap of 1. -/
theorem C2_counterexample :
    getReviewerStats (.ok [prDoubleReview]) =
      .ok [{ username := "alice", reviewCount := 2, approvals := 2,
             changesRequested := 0, comments := 0, totalComments := 0,
             reactions := 0, points := 100 }]
      ∧ (1 : Nat) < 2 :=
  ⟨rfl, by norm_num⟩

/-- C5: in the rescue scorer, per PR and actor at most one rescue credit
is awarded; a counted rescue review is the first review event by that
actor in source order (and only when it qualifies by `minAge`); and with
`countComments` enabled an actor who has any review event on the PR gets
no additional comment credit. -/
theorem C5_rescue_dedup :
    ∀ (minAge : ℚ) (timeUnit : TimeUnit) (countComments : Bool)
      (m : List RescuerStats) (pr : PRNode) (u : String),
      ((rescuerStatsFor (rescueProcessPR minAge timeUnit countComments m pr) u).rescueCount
        ≤ (rescuerStatsFor m u).rescueCount + 1)
      ∧ (rescuerStatsFor
            (pr.reviews.foldl (rescueReviewStep minAge timeUnit pr.createdAt) (m, [])).1 u =
          (match pr.reviews.find? (fun r => r.author == some u) with
           | none => rescuerStatsFor m u
           | some r =>
             if ageInUnit timeUnit (r.submittedAt - pr.createdAt) < minAge then
               rescuerStatsFor m u
             else
               rescueReviewApply timeUnit (ageInUnit timeUnit (r.submittedAt - pr.createdAt)) r
                 (rescuerStatsFor m u)))
      ∧ ((∃ r ∈ pr.reviews, r.author = some u) →
          rescuerStatsFor (rescueProcessPR minAge timeUnit true m pr) u =
            rescuerStatsFor
              (pr.reviews.foldl (rescueReviewStep minAge timeUnit pr.createdAt) (m, [])).1 u) := by
  intro minAge timeUnit countComments m pr u
  have hchar := rescueReviews_char minAge timeUnit pr.createdAt pr.reviews m [] u (by simp)
  have hphase1 : (rescuerStatsFor
      (pr.reviews.foldl (rescueReviewStep minAge timeUnit pr.createdAt) (m, [])).1 u).rescueCount
      ≤ (rescuerStatsFor m u).rescueCount + 1 := by
    rw [hchar]
    cases hf : pr.reviews.find? (fun r => r.author == some u) with
    | none =>
      show (rescuerStatsFor m u).rescueCount ≤ (rescuerStatsFor m u).rescueCount + 1
      omega
    | some r =>
      show (if ageInUnit timeUnit (r.submittedAt - pr.createdAt) < minAge then
          rescuerStatsFor m u
        else rescueReviewApply timeUnit (ageInUnit timeUnit (r.submittedAt - pr.createdAt)) r
          (rescuerStatsFor m u)).rescueCount ≤ (rescuerStatsFor m u).rescueCount + 1
      by_cases hage : ageInUnit timeUnit (r.submittedAt - pr.createdAt) < minAge
      · rw [if_pos hage]
        omega
      · rw [if_neg hage, rescueReviewApply_rescueCount]
  refine ⟨?_, hchar, ?_⟩
  · unfold rescueProcessPR
    cases countComments with
    | false => exact hphase1
    | true =>
      simp only [if_true]
      by_cases hmem : u ∈ (pr.reviews.foldl (rescueReviewStep minAge timeUnit pr.createdAt)
          (m, [])).2
      · rw [rescueComments_rset_skip minAge timeUnit pr.createdAt _ pr.comments _ u hmem]
        exact hphase1
      · have hnone : pr.reviews.find? (fun r => r.author == some u) = none := by
          rw [List.find?_eq_none]
          intro x hx hpx
          exact hmem (rescueReviews_mem_set minAge timeUnit pr.createdAt pr.reviews (m, []) u
            (Or.inr ⟨x, hx, by simpa using hpx⟩))
        have heq : rescuerStatsFor
            (pr.reviews.foldl (rescueReviewStep minAge timeUnit pr.createdAt) (m, [])).1 u =
            rescuerStatsFor m u := by
          rw [hchar, hnone]
        rw [rescueComments_char minAge timeUnit pr.createdAt _ pr.comments _ [] u
          (by simp) hmem, heq]
        cases hf : pr.comments.find? (fun c => c.author == some u) with
        | none =>
          show (rescuerStatsFor m u).rescueCount ≤ (rescuerStatsFor m u).rescueCount + 1
          omega
        | some c =>
          show (if ageInUnit timeUnit (c.createdAt - pr.createdAt) < minAge then
              rescuerStatsFor m u
            else rescueCommentApply timeUnit (ageInUnit timeUnit (c.createdAt - pr.createdAt))
              (rescuerStatsFor m u)).rescueCount ≤ (rescuerStatsFor m u).rescueCount + 1
          by_cases hage : ageInUnit timeUnit (c.createdAt - pr.createdAt) < minAge
          · rw [if_pos hage]
            omega
          · rw [if_neg hage, rescueCommentApply_rescueCount]
  · intro hex
    unfold rescueProcessPR
    simp only [if_true]
    exact rescueComments_rset_skip minAge timeUnit pr.createdAt _ pr.comments _ u
      (rescueReviews_mem_set minAge timeUnit pr.createdAt pr.reviews (m, []) u (Or.inr hex))

/-- Witness for C5: alice, who reviewed, receives no extra comment
credit on the same PR. -/
theorem C5_witness :
    rescuerStatsFor (rescueProcessPR 1 .days true [] prApprovedAfterOneDay) "alice" =
      rescuerStatsFor
        (prApprovedAfterOneDay.reviews.foldl
          (rescueReviewStep 1 .days prApprovedAfterOneDay.createdAt) ([], [])).1 "alice" :=
  (C5_rescue_dedup 1 .days true [] prApprovedAfterOneDay "alice").2.2
    ⟨{ state := "APPROVED", author := some "alice", submittedAt := 86400000 },
      by simp [prApprovedAfterOneDay], rfl⟩

/-- C1 (amended): a rescue event whose ageAtAction is at least minAge is
classified critical when ageAtAction ≥ criticalThreshold (inclusive, so
the exact boundary is critical, not urgent), urgent when urgentThreshold ≤
ageAtAction < criticalThreshold, and warning in every remaining case — the
warning arm is the fall-through branch with no lower threshold check, so
when minAge is below the warning threshold a qualifying event below that
threshold is still classified warning.  Points are floor(base × mult) over
the bases 100/50/25, with multiplier 1 for an Approved/ChangesRequested
review and 0.5 for a Commented review; counted plain comments earn the
hard-coded halves floor(base × 0.5); events with ageAtAction < minAge are
skipped. -/
theorem C1_rescue_tiers :
    ∀ (timeUnit : TimeUnit) (age mult : ℚ),
      ((rescueReviewAward timeUnit age mult).1 = .critical ↔
        (criticalThreshold timeUnit : ℚ) ≤ age)
      ∧ ((rescueReviewAward timeUnit age mult).1 = .urgent ↔
        ((urgentThreshold timeUnit : ℚ) ≤ age ∧ age < (criticalThreshold timeUnit : ℚ)))
      ∧ ((rescueReviewAward timeUnit age mult).1 = .warning ↔
        age < (urgentThreshold timeUnit : ℚ))
      ∧ ((rescueReviewAward timeUnit age mult).2 =
        ⌊(tierBase (rescueReviewAward timeUnit age mult).1 : ℚ) * mult⌋)
      ∧ ((rescueCommentAward timeUnit age).1 = (rescueReviewAward timeUnit age mult).1)
      ∧ ((rescueCommentAward timeUnit age).2 =
        ⌊(tierBase (rescueCommentAward timeUnit age).1 : ℚ) * (1 / 2)⌋)
      ∧ (∀ (minAge : ℚ) (created : Int) (st : List RescuerStats × List String)
          (r : ReviewNode) (u : String), r.author = some u → u ∉ st.2 →
          ageInUnit timeUnit (r.submittedAt - created) < minAge →
          (rescueReviewStep minAge timeUnit created st r).1 = st.1)
      ∧ (∀ (minAge : ℚ) (created : Int) (st : List RescuerStats × List String)
          (r : ReviewNode) (u : String), r.author = some u → u ∉ st.2 →
          ¬ ageInUnit timeUnit (r.submittedAt - created) < minAge →
          (rescueReviewStep minAge timeUnit created st r).1 =
            updateRescuer st.1 u
              (rescueReviewApply timeUnit (ageInUnit timeUnit (r.submittedAt - created)) r)) := by
  intro timeUnit age mult
  refine ⟨?_, ?_, ?_, ?_, ?_, ?_, ?_, ?_⟩
  · cases timeUnit <;>
      (simp only [rescueReviewAward, criticalThreshold, Nat.cast_ofNat]
       split_ifs with h1 h2
       · exact iff_of_true rfl h1
       · exact iff_of_false (by simp) h1
       · exact iff_of_false (by simp) h1)
  · cases timeUnit <;>
      (simp only [rescueReviewAward, criticalThreshold, urgentThreshold, Nat.cast_ofNat]
       split_ifs with h1 h2
       · exact iff_of_false (by simp) (fun hh => not_le.mpr hh.2 h1)
       · exact iff_of_true rfl ⟨h2, not_le.mp h1⟩
       · exact iff_of_false (by simp) (fun hh => h2 hh.1))
  · cases timeUnit <;>
      (simp only [rescueReviewAward, urgentThreshold, Nat.cast_ofNat]
       split_ifs with h1 h2
       · exact iff_of_false (by simp)
           (fun hh => not_le.mpr (lt_of_lt_of_le hh (by norm_num)) h1)
       · exact iff_of_false (by simp) (fun hh => not_le.mpr hh h2)
       · exact iff_of_true rfl (not_le.mp h2))
  · cases timeUnit <;>
      (simp only [rescueReviewAward]
       split_ifs <;> simp [tierBase])
  · cases timeUnit <;>
      (simp only [rescueReviewAward, rescueCommentAward]
       split_ifs <;> rfl)
  · cases timeUnit <;>
      (simp only [rescueCommentAward]
       split_ifs <;>
         (simp only [tierBase, Nat.cast_ofNat]
          rw [eq_comm]
          norm_num [Int.floor_eq_iff]))
  · intro minAge created st r u ha hu hage
    simp [rescueReviewStep, ha, hu, hage]
  · intro minAge created st r u ha hu hage
    simp [rescueReviewStep, ha, hu, hage]

/-- Witness for C1: at exactly the 14-day threshold a review is critical. -/
theorem C1_witness : (rescueReviewAward .days 14 1).1 = .critical :=
  (C1_rescue_tiers .days 14 1).1.mpr (by norm_num [criticalThreshold])

/-- Counterexample for C1 as stated: with minAge 1 (days), an approval at
ageAtAction exactly 1 day — below the 3-day warning threshold — is still
classified warning and earns 25 points, because the warning arm has no
lower bound check. -/
theorem C1_counterexample :
    getRescueLeaderboard (onePageSrc [prApprovedAfterOneDay]) 1 .days true =
      .ok [⟨"alice", 1, 0, 0, 1, 1, 0, 0, 25⟩]
    ∧ ageInUnit .days (86400000 - 0) < (warningThreshold .days : ℚ)
    ∧ (1 : ℚ) ≤ ageInUnit .days (86400000 - 0) := by
  refine ⟨?_, ?_, ?_⟩
  · norm_num [getRescueLeaderboard, fetchLoop, onePageSrc, rescueProcessPage,
      rescueProcessPR, rescueReviewStep, rescueReviewApply, rescueReviewAward,
      bumpTier, updateRescuer, keyedUpdate, keyedGetOrCreate, newRescuer,
      prApprovedAfterOneDay, ageInUnit, msPerUnit, List.insertionSort,
      List.orderedInsert, Except.map]
  · norm_num [ageInUnit, msPerUnit, warningThreshold]
  · norm_num [ageInUnit, msPerUnit]

/-- C6: the REST `getReviewerStats` breaks the documented sum invariant
`reviewCount = approvals + changesRequested + comments` on a review whose
disposition is outside the three known states: a single PENDING review
yields reviewCount 1 with all three disposition counters 0. -/
theorem C6_sum_invariant_bug :
    getReviewerStats (.ok [prPendingReview]) =
      .ok [⟨"alice", 1, 0, 0, 0, 0, 0, 0⟩]
    ∧ (0 + 0 + 0 : Nat) < 1 :=
  ⟨rfl, by norm_num⟩

/-- C8 (amended): a failed page-list request aborts the whole run — an ok
run implies every issued request succeeded, so no partial result can come
out of a failing pagination; an empty source yields empty success for all
three aggregations; but a failed per-PR sub-resource fetch in the REST
path is caught and treated as an empty list, so `getReviewerStats` never
fails once the PR list arrived and can return a partial aggregate. -/
theorem C8_error_handling :
    (∀ (σ : Type) (process : σ → Page → σ) (fuel : Nat) (s : σ)
        (cursor : Option String) (src : Option String → Except String Page) (out : σ),
        (fetchLoop src process s cursor fuel).1 = .ok out →
        ∀ c ∈ (fetchLoop src process s cursor fuel).2, (src c).isOk = true)
    ∧ getLeaderboard emptySrc = .ok []
    ∧ getRescueLeaderboard emptySrc 7 .days true = .ok []
    ∧ getTop10MostNeglectedPRs emptySrc 3 .days 0 = .ok []
    ∧ (∀ prs : List RestPR, ∃ l, getReviewerStats (.ok prs) = .ok l)
    ∧ (∀ pr : RestPR, pr.reviewsResult.isOk = false → fetchPRReviews pr = []) := by
  refine ⟨?_, rfl, rfl, rfl, ?_, ?_⟩
  · intro σ process fuel s cursor src out h
    exact fetchLoop_ok_requests src process fuel s cursor out h
  · intro prs
    exact ⟨_, rfl⟩
  · intro pr h
    unfold fetchPRReviews
    cases hres : pr.reviewsResult with
    | ok d =>
      rw [hres] at h
      simp [Except.isOk, Except.toBool] at h
    | error e => rfl

/-- Witness for C8: on the empty source the single issued request
succeeded. -/
theorem C8_witness : (emptySrc none).isOk = true :=
  C8_error_handling.1 (List ReviewerStats) leaderboardProcessPage 6 [] none emptySrc []
    rfl none (by simp [fetchLoop, emptySrc])

/-- Counterexample for C8 as stated: the reviews fetch for this PR fails,
yet the run returns ok with a partial aggregate built from the comments. -/
theorem C8_counterexample :
    getReviewerStats (.ok [prFailingReviewsFetch]) =
      .ok [⟨"alice", 0, 0, 0, 0, 1, 0, 5⟩]
    ∧ prFailingReviewsFetch.reviewsResult = .error "boom" :=
  ⟨rfl, rfl⟩

/-- C10: `getTop10MostNeglectedPRs` classifies each PR at its floored age
(and records that floored age as `ageDays`), while the `fetchStalePRs`
filter compares the unfloored fractional age with `minTime`; the critical
tier is reached exactly when the full 14-day period has elapsed, and a PR
aged 13.9 days passes the `minTime = 3` filter yet is classified urgent,
not critical, with `ageDays = 13`. -/
theorem C10_floor_vs_fraction :
    (∀ (src : Option String → Except String Page) (minTime : ℚ)
        (timeUnit : TimeUnit) (now : Int) (l : List PRWithStatus),
        getTop10MostNeglectedPRs src minTime timeUnit now = .ok l →
        ∀ q ∈ l, q.ageDays = ⌊ageInUnit timeUnit (now - q.createdAt)⌋ ∧
          q.status = calculatePRStatus (q.ageDays : ℚ) q.reviewCount q.commentCount timeUnit)
    ∧ (∀ x : ℚ, (calculatePRStatus ((⌊x⌋ : Int) : ℚ) 0 0 .days).urgency = .critical ↔
        14 ≤ x)
    ∧ (fetchStalePRs (onePageSrc [prNoActivity]) 3 false .days 1200960000 =
        .ok [⟨2, "t", "u", 0, 0, 0⟩])
    ∧ ((getTop10MostNeglectedPRs (onePageSrc [prNoActivity]) 3 .days 1200960000).map
        (fun l => l.map (fun q => (q.ageDays, q.status.urgency))) =
        .ok [((13 : Int), UrgencyLevel.urgent)]) := by
  refine ⟨?_, ?_, ?_, ?_⟩
  · intro src minTime timeUnit now l h q hq
    unfold getTop10MostNeglectedPRs at h
    cases hrun : fetchStalePRs src minTime false timeUnit now with
    | error e =>
      rw [hrun] at h
      simp [Except.map] at h
    | ok stalePRs =>
      rw [hrun] at h
      simp only [Except.map, Except.ok.injEq] at h
      rw [← h] at hq
      have hq2 : q ∈ stalePRs.map (withStatus timeUnit now) :=
        (List.perm_insertionSort byNeglect _).mem_iff.mp (List.mem_of_mem_take hq)
      rcases List.mem_map.mp hq2 with ⟨pr, _, hqe⟩
      subst hqe
      exact ⟨rfl, rfl⟩
  · intro x
    constructor
    · intro h
      by_contra hcon
      push_neg at hcon
      have hfl : ((⌊x⌋ : Int) : ℚ) < 14 := by
        have hle : ((⌊x⌋ : Int) : ℚ) ≤ x := Int.floor_le x
        linarith
      unfold calculatePRStatus at h
      rw [if_neg (by norm_num), if_neg (by simpa [criticalThreshold] using not_le.mpr hfl)]
        at h
      split_ifs at h
    · intro h
      have hfl : (14 : Int) ≤ ⌊x⌋ := Int.le_floor.mpr (by exact_mod_cast h)
      have hflq : ((criticalThreshold TimeUnit.days : Nat) : ℚ) ≤ ((⌊x⌋ : Int) : ℚ) := by
        simp only [criticalThreshold, Nat.cast_ofNat]
        exact_mod_cast hfl
      unfold calculatePRStatus
      rw [if_neg (by norm_num), if_pos hflq]
  · have hage : ageInUnit .days 1200960000 = 139 / 10 := by
      norm_num [ageInUnit, msPerUnit]
    norm_num [fetchStalePRs, fetchLoop, onePageSrc, staleProcessPage, staleProcessPR,
      prNoActivity, hage]
  · have hage : ageInUnit .days 1200960000 = 139 / 10 := by
      norm_num [ageInUnit, msPerUnit]
    have hfl : ⌊ageInUnit .days 1200960000⌋ = 13 := by
      rw [hage]
      norm_num [Int.floor_eq_iff]
    norm_num [getTop10MostNeglectedPRs, fetchStalePRs, fetchLoop, onePageSrc,
      staleProcessPage, staleProcessPR, prNoActivity, hage, hfl, withStatus,
      calculatePRStatus, criticalThreshold, urgentThreshold, List.insertionSort,
      List.orderedInsert, Except.map]

/-- Witness for C10: a floored age of 20 days is classified critical. -/
theorem C10_witness :
    (calculatePRStatus ((⌊(20 : ℚ)⌋ : Int) : ℚ) 0 0 .days).urgency = .critical :=
  (C10_floor_vs_fraction.2.1 20).mpr (by norm_num)

end LICORNE
